import Mathlib

/-!
Verification of the dejaview season-recap ("stats") engine.

The Go source computes every statistic with SQL queries in
`internal/repository/movie.go` (StatsRepository) and assembles the report in
`internal/handler/stats.go` (StatsHandler).  This file gives a shallow
embedding of those computations over an immutable fact snapshot:

* SQL tables become lists of records inside a `Snapshot`;
* each SQL query becomes a Lean function over the snapshot, translated
  clause by clause (joins on a grouped subquery with a unique key become
  membership filters, `COALESCE(x, 0)` on an empty aggregate becomes the
  value of the aggregate on the empty list);
* SQL `AVG` becomes `ratMean` (with `ratMean [] = 0`, matching the
  `COALESCE(_, 0)` wrappers in every query);
* SQL `STDDEV_POP` is a square root, which is irrational, so this embedding
  carries the population *variance* (`varPop`, the square of the standard
  deviation) everywhere the source carries the standard deviation.  Every
  use of the standard deviation in the source is a comparison (`ORDER BY`,
  `<`, `> 0`) or a sentinel test against `999`, and squaring is a strictly
  monotone bijection on nonnegative values, so each winner, ordering and
  emission decision is unchanged: a comparison `stddev < 999` is embedded
  as `variance < 998001` (`999^2`), and `stddev > 0` as `variance > 0`.
* Go maps iterated with `range` have no deterministic order; functions that
  consume them (`findMax`, `findMin`, leaderboard loops) are embedded over
  lists, with the list order standing for one possible iteration order.

Scores are embedded as rationals; the database constrains them to
`[0.0, 10.0]` (migration adding `ratings_score_check`).
-/

/-- Person row: `persons(id, initial, name)`. -/
structure Person where
  id : Nat
  initial : String
  name : String
deriving DecidableEq

/-- Entry row: `entries(id, movie_id, group_number, position, picked_by_person_id)`.
`addedAt` and other columns are not used by the stats engine. -/
structure Entry where
  id : Nat
  movieId : Nat
  groupNumber : Int
  position : Int
  pickedBy : Option Nat
deriving DecidableEq

/-- Movie row, restricted to the columns the stats queries read:
`movies(id, title, release_year, runtime_minutes)`. -/
structure Movie where
  id : Nat
  title : String
  releaseYear : Option Int
  runtimeMinutes : Option Int
deriving DecidableEq

/-- Rating row: `ratings(person_id, entry_id, score)`. -/
structure Rating where
  personId : Nat
  entryId : Nat
  score : ℚ
deriving DecidableEq

/-- One immutable fact snapshot: the four tables the stats queries read. -/
structure Snapshot where
  persons : List Person
  entries : List Entry
  movies : List Movie
  ratings : List Rating
deriving DecidableEq

/-- SQL `AVG` over a list of rationals; on the empty list this is `0/0 = 0`,
which matches the `COALESCE(AVG(..), 0)` wrapping used by every query. -/
def ratMean (l : List ℚ) : ℚ := l.sum / l.length

/-- Population variance (square of SQL `STDDEV_POP`): mean squared deviation
from the mean, divisor `N`.  `varPop [] = 0` matches `COALESCE(.., 0)`. -/
def varPop (l : List ℚ) : ℚ := ratMean (l.map (fun x => (x - ratMean l) ^ 2))

/-- SQL `MIN` over a (possibly empty) column. -/
def listMin? {α : Type} [LinearOrder α] : List α → Option α
  | [] => none
  | x :: xs =>
    match listMin? xs with
    | none => some x
    | some m => some (min x m)

/-- SQL `MAX` over a (possibly empty) column. -/
def listMax? {α : Type} [LinearOrder α] : List α → Option α
  | [] => none
  | x :: xs =>
    match listMax? xs with
    | none => some x
    | some m => some (max x m)

/-- Ratings of one entry (`FROM ratings WHERE entry_id = eid`). -/
def ratingsFor (s : Snapshot) (eid : Nat) : List Rating :=
  s.ratings.filter (fun r => r.entryId == eid)

/-- Scores of one entry's ratings. -/
def entryScores (s : Snapshot) (eid : Nat) : List ℚ :=
  (ratingsFor s eid).map (fun r => r.score)

/-- Membership in the `fully_rated_entries` CTE that every stats query
repeats: `SELECT entry_id FROM ratings GROUP BY entry_id HAVING COUNT(*) = 4`.
The threshold is the literal `4` in the source. -/
def isFullyRated (s : Snapshot) (eid : Nat) : Bool :=
  s.ratings.countP (fun r => r.entryId == eid) == 4

/-- The `fully_rated_entries` CTE as a key list: the distinct entry ids with
exactly 4 ratings.  `dedup` renders `GROUP BY entry_id`. -/
def fullyRatedIds (s : Snapshot) : List Nat :=
  ((s.ratings.map (fun r => r.entryId)).dedup).filter (fun eid => isFullyRated s eid)

/-- Fully-rated as the spec defines it, for comparison with `isFullyRated`:
"the number of distinct persons who rated it equals the total number of known
persons in the current snapshot".  This follows the spec's words; the source
uses the hardcoded count 4 instead. -/
def specFullyRated (s : Snapshot) (eid : Nat) : Bool :=
  (((ratingsFor s eid).map (fun r => r.personId)).dedup).length == s.persons.length

/-- `GetPickCounts`: `COUNT(*)` of entries grouped by `picked_by_person_id`. -/
def totalPicksOf (s : Snapshot) (pid : Nat) : Nat :=
  s.entries.countP (fun e => e.pickedBy == some pid)

/-- Scores of the ratings a person gave on fully-rated entries: the rows of
the `rating_given` CTE of `GetRatingStats` for that person
(`ratings JOIN fully_rated_entries ON entry_id`). -/
def givenScoresFR (s : Snapshot) (pid : Nat) : List ℚ :=
  (s.ratings.filter (fun r => r.personId == pid && isFullyRated s r.entryId)).map
    (fun r => r.score)

/-- `GetRatingStats.avg_rating_given`: `COALESCE(AVG(score), 0)` over the
person's ratings on fully-rated entries. -/
def avgRatingGivenOf (s : Snapshot) (pid : Nat) : ℚ :=
  ratMean (givenScoresFR s pid)

/-- Square of `GetRatingStats.rating_stddev` (`STDDEV_POP` over the person's
ratings on fully-rated entries); see the header on the variance embedding. -/
def ratingVarianceOf (s : Snapshot) (pid : Nat) : ℚ :=
  varPop (givenScoresFR s pid)

/-- `GetRatingStats.total_ratings_given` (`COUNT(*)` of the `rating_given`
rows); stored into `PersonStats.MoviesRated` by `buildPersonStatsMap`.  Note
this counts only ratings on fully-rated entries. -/
def moviesRatedOf (s : Snapshot) (pid : Nat) : Nat :=
  (givenScoresFR s pid).length

/-- Rows of the `rating_received` CTE for one person: every rating on a
fully-rated entry that the person picked
(`entries JOIN ratings ON id = entry_id JOIN fully_rated_entries`). -/
def receivedScoresFR (s : Snapshot) (pid : Nat) : List ℚ :=
  (s.entries.filter (fun e => e.pickedBy == some pid && isFullyRated s e.id)).flatMap
    (fun e => entryScores s e.id)

/-- `GetRatingStats.avg_rating_received`: `COALESCE(AVG(score), 0)` over the
ratings received by the person's fully-rated picks. -/
def avgRatingReceivedOf (s : Snapshot) (pid : Nat) : ℚ :=
  ratMean (receivedScoresFR s pid)

/-- Whether an entry's position equals `MIN(position)` of its round
(`group_bounds.min_pos` in `GetPickPositionStats`), expressed as: the entry's
position is a lower bound of its round's positions. -/
def isGroupMinB (s : Snapshot) (e : Entry) : Bool :=
  s.entries.all (fun x => x.groupNumber != e.groupNumber || e.position ≤ x.position)

/-- Whether an entry's position equals `MAX(position)` of its round
(`group_bounds.max_pos` in `GetPickPositionStats`). -/
def isGroupMaxB (s : Snapshot) (e : Entry) : Bool :=
  s.entries.all (fun x => x.groupNumber != e.groupNumber || x.position ≤ e.position)

/-- `GetPickPositionStats.first_pick_count`: entries the person picked whose
position is the minimum of their round. -/
def firstPickCountOf (s : Snapshot) (pid : Nat) : Nat :=
  s.entries.countP (fun e => e.pickedBy == some pid && isGroupMinB s e)

/-- `GetPickPositionStats.last_pick_count`: entries the person picked whose
position is the maximum of their round. -/
def lastPickCountOf (s : Snapshot) (pid : Nat) : Nat :=
  s.entries.countP (fun e => e.pickedBy == some pid && isGroupMaxB s e)

/-- The `entry_averages` CTE of `GetDeviationStats` as a keyed lookup:
`AVG(score)` per entry, but only for entries in `fully_rated_entries`
(`WHERE entry_id IN (SELECT entry_id FROM fully_rated_entries)`). -/
def entryAvgFR (s : Snapshot) (eid : Nat) : Option ℚ :=
  if isFullyRated s eid then some (ratMean (entryScores s eid)) else none

/-- One row of the `deviations` CTE of `GetDeviationStats`: a rating by the
person joined against `entry_averages` yields `ABS(score - avg_score)`; a
rating by someone else, or on an entry absent from `entry_averages` (i.e. not
fully rated), yields no row. -/
def devRow (s : Snapshot) (pid : Nat) (r : Rating) : Option ℚ :=
  if r.personId == pid then
    (entryAvgFR s r.entryId).map (fun a => |r.score - a|)
  else none

/-- `GetDeviationStats.avg_deviation`: `AVG(ABS(score - avg_score))` over the
person's ratings joined against `entry_averages`. -/
def avgDeviationOf (s : Snapshot) (pid : Nat) : ℚ :=
  ratMean (s.ratings.filterMap (devRow s pid))

/-- The `entry_min_ratings` CTE of `GetSelfRatingStats` as a keyed lookup:
`MIN(score)` per entry, restricted to entries in `fully_rated_entries`. -/
def entryMinFR (s : Snapshot) (eid : Nat) : Option ℚ :=
  if isFullyRated s eid then listMin? (entryScores s eid) else none

/-- `GetSelfRatingStats.self_lowest`: rows of
`entries e JOIN ratings r ON e.id = r.entry_id AND e.picked_by = r.person_id
JOIN entry_min_ratings emr ON e.id = emr.entry_id AND r.score = emr.min_score`,
counted per picker. -/
def selfLowestOf (s : Snapshot) (pid : Nat) : Nat :=
  ((s.entries.filter (fun e => e.pickedBy == some pid)).map (fun e =>
    (s.ratings.filter (fun r =>
      r.entryId == e.id && r.personId == pid &&
        entryMinFR s e.id == some r.score)).length)).sum

/-- Movie lookup for `entries JOIN movies ON movie_id = movies.id`. -/
def movieOf (s : Snapshot) (e : Entry) : Option Movie :=
  s.movies.find? (fun m => m.id == e.movieId)

/-- `GetPickMetadataStats.total_runtime`: `COALESCE(SUM(runtime_minutes), 0)`
over the person's picks (SQL `SUM` skips NULL runtimes). -/
def totalRuntimeOf (s : Snapshot) (pid : Nat) : Int :=
  ((s.entries.filter (fun e => e.pickedBy == some pid)).filterMap
    (fun e => (movieOf s e).bind (fun m => m.runtimeMinutes))).sum

/-- `GetPickMetadataStats.avg_release_year`: `COALESCE(AVG(release_year), 0)`
over the person's picks (SQL `AVG` skips NULL years). -/
def avgReleaseYearOf (s : Snapshot) (pid : Nat) : ℚ :=
  ratMean (((s.entries.filter (fun e => e.pickedBy == some pid)).filterMap
    (fun e => (movieOf s e).bind (fun m => m.releaseYear))).map (fun y => (y : ℚ)))

/-- `model.PersonStats`, with `ratingVariance` carrying the square of the
source's `RatingStdDev` (see header). -/
structure PersonStats where
  person : Person
  totalPicks : Nat
  moviesRated : Nat
  avgRatingGiven : ℚ
  avgRatingReceived : ℚ
  firstPickCount : Nat
  lastPickCount : Nat
  ratingVariance : ℚ
  avgDeviationFromGroup : ℚ
  selfLowestCount : Nat
  totalRuntimePicked : Int
  avgReleaseYear : ℚ
deriving DecidableEq

/-- `buildPersonStatsMap` for one person: each SQL query returns one row per
person (or no row, in which case the struct keeps its zero value, which every
query encodes with `COALESCE(.., 0)` and the embedding with empty-list
aggregates). -/
def personStatsOf (s : Snapshot) (p : Person) : PersonStats where
  person := p
  totalPicks := totalPicksOf s p.id
  moviesRated := moviesRatedOf s p.id
  avgRatingGiven := avgRatingGivenOf s p.id
  avgRatingReceived := avgRatingReceivedOf s p.id
  firstPickCount := firstPickCountOf s p.id
  lastPickCount := lastPickCountOf s p.id
  ratingVariance := ratingVarianceOf s p.id
  avgDeviationFromGroup := avgDeviationOf s p.id
  selfLowestCount := selfLowestOf s p.id
  totalRuntimePicked := totalRuntimeOf s p.id
  avgReleaseYear := avgReleaseYearOf s p.id

/-- The person-stats collection, one record per known person (the source
stores them in a Go map keyed by person id; the list order stands for one
iteration order of that map). -/
def allPersonStats (s : Snapshot) : List PersonStats :=
  s.persons.map (fun p => personStatsOf s p)

/-- `model.Award`, reduced to the fields the engine computes from data: the
category id and the winning person (title, description, icon and the
formatted value string are fixed presentation text). -/
structure Award where
  id : String
  winner : Person
deriving DecidableEq

/-- `StatsHandler.findMax`: scan of the person-stats collection keeping the
first strictly greater metric value, starting from `winner = nil`,
`maxVal = -1`.  The list argument stands for one iteration order of the Go
map. -/
def findMax (l : List PersonStats) (metric : PersonStats → ℚ) : Option Person × ℚ :=
  l.foldl
    (fun acc ps => if metric ps > acc.2 then (some ps.person, metric ps) else acc)
    (none, -1)

/-- `StatsHandler.findMin`: scan keeping the first strictly smaller metric
value, starting from `winner = nil`, `minVal = +Inf`.  The unreached `+Inf`
start is embedded as `none`; the first element always replaces it, as every
finite float is `< +Inf`. -/
def findMin (l : List PersonStats) (metric : PersonStats → ℚ) : Option Person × Option ℚ :=
  l.foldl
    (fun acc ps =>
      match acc.2 with
      | none => (some ps.person, some (metric ps))
      | some m => if metric ps < m then (some ps.person, some (metric ps)) else acc)
    (none, none)

/-- One `findMax` award block of `calculateAwards`: emitted iff a winner
exists and the winning value is `> 0`. -/
def maxAward (l : List PersonStats) (i : String) (metric : PersonStats → ℚ) : List Award :=
  match findMax l metric with
  | (some w, v) => if 0 < v then [⟨i, w⟩] else []
  | (none, _) => []

/-- One `findMin` award block of `calculateAwards`: emitted iff a winner
exists and the winning value is below the no-data sentinel `bound`. -/
def minAward (l : List PersonStats) (i : String) (metric : PersonStats → ℚ) (bound : ℚ) :
    List Award :=
  match findMin l metric with
  | (some w, some v) => if v < bound then [⟨i, w⟩] else []
  | _ => []

/-- `StatsHandler.calculateAwards`: the twelve award blocks in source order.
The two stddev metrics are embedded as variances, with the `999` stddev
sentinel squared to `998001` (see header). -/
def calculateAwards (l : List PersonStats) : List Award :=
  maxAward l "headliner" (fun ps => (ps.firstPickCount : ℚ)) ++
  maxAward l "biggest_loser" (fun ps => (ps.lastPickCount : ℚ)) ++
  maxAward l "corporate_darling"
    (fun ps => if ps.totalPicks == 0 then 0 else ps.avgRatingReceived) ++
  minAward l "harsh_critic"
    (fun ps => if ps.moviesRated == 0 then 999 else ps.avgRatingGiven) 999 ++
  maxAward l "easy_pleaser"
    (fun ps => if ps.moviesRated == 0 then 0 else ps.avgRatingGiven) ++
  maxAward l "critical_outlier" (fun ps => ps.avgDeviationFromGroup) ++
  maxAward l "movie_masochist" (fun ps => (ps.selfLowestCount : ℚ)) ++
  minAward l "steady_hand"
    (fun ps => if ps.moviesRated == 0 then 998001 else ps.ratingVariance) 998001 ++
  maxAward l "wildcard"
    (fun ps => if ps.moviesRated == 0 then 0 else ps.ratingVariance) ++
  minAward l "throwback_royalty"
    (fun ps =>
      if ps.totalPicks == 0 || ps.avgReleaseYear == 0 then 9999 else ps.avgReleaseYear)
    9999 ++
  maxAward l "fresh_picker"
    (fun ps => if ps.totalPicks == 0 then 0 else ps.avgReleaseYear) ++
  maxAward l "marathon_runner" (fun ps => (ps.totalRuntimePicked : ℚ))

/-- Per-entry dispersion record of `GetMovieRatingVariance.entry_stats`;
`spread` is the square of the query's `stddev_rating` (see header). -/
structure EntryStats where
  entryId : Nat
  spread : ℚ
deriving DecidableEq

/-- Descending-spread order used by `ORDER BY es.stddev_rating DESC`
(squaring preserves the order of the nonnegative stddev values). -/
def statGE (a b : EntryStats) : Prop := b.spread ≤ a.spread

instance : DecidableRel statGE := fun a b => inferInstanceAs (Decidable (b.spread ≤ a.spread))

instance : IsTotal EntryStats statGE := ⟨fun a b => le_total b.spread a.spread⟩

instance : IsTrans EntryStats statGE := ⟨fun _ _ _ h h' => le_trans h' h⟩

/-- `GetMovieRatingVariance`: dispersion of each fully-rated entry, ordered
by descending spread.  SQL leaves the order among equal spreads unspecified;
the sort embeds one such order. -/
def movieVariance (s : Snapshot) : List EntryStats :=
  List.insertionSort statGE
    ((fullyRatedIds s).map (fun eid => ⟨eid, varPop (entryScores s eid)⟩))

/-- `model.MovieAward`, reduced to the computed fields: category id, winning
entry, and its spread (the square of the displayed rating stddev). -/
structure MovieAward where
  id : String
  entryId : Nat
  spread : ℚ
deriving DecidableEq

/-- `StatsHandler.calculateMovieAwards`: "Hype Train" is the head of the
descending list when its spread is positive; "The Unifier" is the last
element (`movieVariance[len-1]`), emitted when the list has more than one
element. -/
def calculateMovieAwards (mv : List EntryStats) : List MovieAward :=
  match mv with
  | [] => []
  | hd :: tl =>
    (if 0 < hd.spread then [⟨"hype_train", hd.entryId, hd.spread⟩] else []) ++
    (match tl.getLast? with
     | some z => [⟨"unifier", z.entryId, z.spread⟩]
     | none => [])

/-- `model.LeaderboardEntry`, without the formatted label string. -/
structure LBEntry where
  person : Person
  value : ℚ
deriving DecidableEq

/-- `model.Leaderboard`. -/
structure Leaderboard where
  title : String
  entries : List LBEntry
  maxValue : ℚ
deriving DecidableEq

/-- Descending-value order produced by
`sort.Slice(entries, func(i, j) { return entries[i].Value > entries[j].Value })`. -/
def lbGE (a b : LBEntry) : Prop := b.value ≤ a.value

instance : DecidableRel lbGE := fun a b => inferInstanceAs (Decidable (b.value ≤ a.value))

instance : IsTotal LBEntry lbGE := ⟨fun a b => le_total b.value a.value⟩

instance : IsTrans LBEntry lbGE := ⟨fun _ _ _ h h' => le_trans h' h⟩

/-- One leaderboard block of `buildLeaderboards`: sort the qualifying entries
by descending value, record the running maximum (which starts at `0`), and
omit the board entirely when no entry qualifies. -/
def boardOf (title : String) (entries : List LBEntry) : List Leaderboard :=
  if entries.isEmpty then []
  else [⟨title, List.insertionSort lbGE entries, (entries.map (fun en => en.value)).foldl max 0⟩]

/-- Generosity Index rows: persons with `MoviesRated > 0`, valued by
`AvgRatingGiven`. -/
def genEntries (stats : List PersonStats) : List LBEntry :=
  (stats.filter (fun ps => decide (0 < ps.moviesRated))).map
    (fun ps => ⟨ps.person, ps.avgRatingGiven⟩)

/-- Pick Success Rate rows: persons with `TotalPicks > 0` and
`AvgRatingReceived > 0`, valued by `AvgRatingReceived`. -/
def succEntries (stats : List PersonStats) : List LBEntry :=
  (stats.filter (fun ps => decide (0 < ps.totalPicks) && decide ((0:ℚ) < ps.avgRatingReceived))).map
    (fun ps => ⟨ps.person, ps.avgRatingReceived⟩)

/-- Total Picks rows: persons with `TotalPicks > 0`, valued by the pick
count. -/
def pickEntries (stats : List PersonStats) : List LBEntry :=
  (stats.filter (fun ps => decide (0 < ps.totalPicks))).map
    (fun ps => ⟨ps.person, (ps.totalPicks : ℚ)⟩)

/-- `StatsHandler.buildLeaderboards`: the three boards in source order, each
omitted when empty. -/
def buildLeaderboards (stats : List PersonStats) : List Leaderboard :=
  boardOf "Generosity Index" (genEntries stats) ++
  boardOf "Pick Success Rate" (succEntries stats) ++
  boardOf "Total Picks" (pickEntries stats)

/-- `GetCurrentGroup`: `COALESCE(MAX(group_number), 1)`. -/
def getCurrentGroup (s : Snapshot) : Int :=
  (listMax? (s.entries.map (fun e => e.groupNumber))).getD 1

/-- `persons` lookup used by `JOIN persons p ON e.picked_by_person_id = p.id`. -/
def lookupPerson (s : Snapshot) (pid : Nat) : Option Person :=
  s.persons.find? (fun p => p.id == pid)

/-- `GetAdvantageHolder`: for `currentGroup ≤ 1` no holder (advantage group
reported as 0); otherwise the picker of an entry of the previous round whose
position is the round maximum (`LIMIT 1` keeps the first such row; a missing
picker or an empty previous round yields no holder, not an error). -/
def getAdvantageHolder (s : Snapshot) (currentGroup : Int) : Option Person × Int :=
  if currentGroup ≤ 1 then (none, 0)
  else
    let pg := currentGroup - 1
    let prev := s.entries.filter (fun e => e.groupNumber == pg)
    match listMax? (prev.map (fun e => e.position)) with
    | none => (none, pg)
    | some mp =>
      (((prev.filter (fun e => e.position == mp)).filterMap
          (fun e => e.pickedBy.bind (fun pid => lookupPerson s pid))).head?, pg)

/-- `GetSummaryStats.total_runtime`: `SUM(m.runtime_minutes)` over
`entries JOIN movies` (`SUM` skips NULL), `COALESCE`d to 0. -/
def totalRuntimeAll (s : Snapshot) : Int :=
  (s.entries.filterMap (fun e => (movieOf s e).bind (fun m => m.runtimeMinutes))).sum

/-- `model.StatsData`: the assembled report. -/
structure StatsData where
  advantageHolder : Option Person
  advantageGroup : Int
  awards : List Award
  movieAwards : List MovieAward
  leaderboards : List Leaderboard
  personStats : List PersonStats
  totalMoviesWatched : Nat
  totalWatchTimeMinutes : Int
  totalGroups : Int
  fullyRatedMovies : Nat
deriving DecidableEq

/-- `StatsHandler.buildStatsData`: fetch every aggregate from the snapshot
and assemble the report.  Summary counts are those of `GetSummaryStats`
(`COUNT(*)` of entries, total runtime, `COALESCE(MAX(group_number), 0)`, and
the size of the `fully_rated_entries` group). -/
def buildStatsData (s : Snapshot) : StatsData where
  advantageHolder := (getAdvantageHolder s (getCurrentGroup s)).1
  advantageGroup := (getAdvantageHolder s (getCurrentGroup s)).2
  awards := calculateAwards (allPersonStats s)
  movieAwards := calculateMovieAwards (movieVariance s)
  leaderboards := buildLeaderboards (allPersonStats s)
  personStats := allPersonStats s
  totalMoviesWatched := s.entries.length
  totalWatchTimeMinutes := totalRuntimeAll s
  totalGroups := (listMax? (s.entries.map (fun e => e.groupNumber))).getD 0
  fullyRatedMovies := (fullyRatedIds s).length

/-- AvgDeviationFromGroup as the spec claims it: "mean absolute difference
between each rating they gave and that entry's average rating, computed over
all rated entries (no fully-rated restriction)".  Follows the spec's words,
for comparison with `avgDeviationOf`. -/
def specAvgDeviation (s : Snapshot) (pid : Nat) : ℚ :=
  ratMean ((s.ratings.filter (fun r => r.personId == pid)).map
    (fun r => |r.score - ratMean (entryScores s r.entryId)|))

/-- AvgDeviationFromGroup restricted to fully-rated entries: the amended
reading of the claim, written directly from the amended words ("ratings on
fully-rated entries only") for comparison with `avgDeviationOf`. -/
def specAvgDeviationFR (s : Snapshot) (pid : Nat) : ℚ :=
  ratMean (((s.ratings.filter (fun r => r.personId == pid)).filter
      (fun r => isFullyRated s r.entryId)).map
    (fun r => |r.score - ratMean (entryScores s r.entryId)|))

/-- SelfLowestCount as the spec claims it: "count of entries where the person
both picked the entry and gave it the lowest score among all ratings on that
entry", quantified over every rated entry they picked.  Follows the spec's
words, for comparison with `selfLowestOf`. -/
def specSelfLowest (s : Snapshot) (pid : Nat) : Nat :=
  s.entries.countP (fun e =>
    e.pickedBy == some pid &&
    s.ratings.any (fun r =>
      r.entryId == e.id && r.personId == pid &&
        listMin? (entryScores s e.id) == some r.score))

/-- SelfLowestCount restricted to fully-rated entries: the amended reading of
the claim, written from the amended words. -/
def specSelfLowestFR (s : Snapshot) (pid : Nat) : Nat :=
  s.entries.countP (fun e =>
    e.pickedBy == some pid && isFullyRated s e.id &&
    s.ratings.any (fun r =>
      r.entryId == e.id && r.personId == pid &&
        listMin? (entryScores s e.id) == some r.score))

/-- Distinct round numbers of the snapshot. -/
def groupsOf (s : Snapshot) : List Int :=
  (s.entries.map (fun e => e.groupNumber)).dedup

/-- Sum of `FirstPickCount` over all known persons. -/
def sumFirstPicks (s : Snapshot) : Nat :=
  (s.persons.map (fun p => firstPickCountOf s p.id)).sum

/-- Sum of `LastPickCount` over all known persons. -/
def sumLastPicks (s : Snapshot) : Nat :=
  (s.persons.map (fun p => lastPickCountOf s p.id)).sum

/-- Number of rounds that have at least one entry with a picker (the claim's
right-hand side for the pick-count conservation law). -/
def roundsWithPicked (s : Snapshot) : Nat :=
  (groupsOf s).countP (fun g =>
    s.entries.any (fun e => e.groupNumber == g && e.pickedBy.isSome))

/-- Number of rounds whose minimum-position entry has a picker (the amended
right-hand side for the `FirstPickCount` sum). -/
def roundsMinPicked (s : Snapshot) : Nat :=
  (groupsOf s).countP (fun g =>
    s.entries.any (fun e => e.groupNumber == g && isGroupMinB s e && e.pickedBy.isSome))

/-- Number of rounds whose maximum-position entry has a picker (the amended
right-hand side for the `LastPickCount` sum). -/
def roundsMaxPicked (s : Snapshot) : Nat :=
  (groupsOf s).countP (fun g =>
    s.entries.any (fun e => e.groupNumber == g && isGroupMaxB s e && e.pickedBy.isSome))

/-- Position uniqueness within each round: the invariant §3 of the spec
assumes of well-formed snapshots. -/
def UniquePositions (s : Snapshot) : Prop :=
  ∀ e ∈ s.entries, ∀ e' ∈ s.entries,
    e.groupNumber = e'.groupNumber → e.position = e'.position → e = e'

instance (s : Snapshot) : Decidable (UniquePositions s) := by
  unfold UniquePositions; infer_instance

/-- Concrete persons for the concrete snapshots below. -/
def pA : Person := ⟨1, "A", "Alice"⟩

def pB : Person := ⟨2, "B", "Bob"⟩

def pC : Person := ⟨3, "C", "Cleo"⟩

def pD : Person := ⟨4, "D", "Dana"⟩

/-- Snapshot with two known persons who both rated the one entry (scores 5
and 6): fully rated by the spec's live-participant definition, but not by the
source's hardcoded `COUNT(*) = 4`. -/
def snapPair : Snapshot where
  persons := [pA, pB]
  entries := [⟨100, 500, 1, 1, some 1⟩]
  movies := []
  ratings := [⟨1, 100, 5⟩, ⟨2, 100, 6⟩]

/-- Snapshot with two persons tied on every pick-position metric: person A
picked the sole entry of round 1 and person B the sole entry of round 2, so
both have `FirstPickCount = LastPickCount = 1`. -/
def snapTie : Snapshot where
  persons := [pA, pB]
  entries := [⟨101, 500, 1, 1, some 1⟩, ⟨102, 501, 2, 1, some 2⟩]
  movies := []
  ratings := []

/-- Snapshot whose round 1 has unique positions, a pickerless entry at the
minimum position and a picked entry at the maximum position. -/
def snapPos : Snapshot where
  persons := [pA]
  entries := [⟨103, 500, 1, 1, none⟩, ⟨104, 501, 1, 2, some 1⟩]
  movies := []
  ratings := []

/-- Snapshot with four persons and one entry rated by all four (scores 5, 6,
7, 8), picked and rated lowest by person A. -/
def snapFour : Snapshot where
  persons := [pA, pB, pC, pD]
  entries := [⟨105, 500, 1, 1, some 1⟩]
  movies := []
  ratings := [⟨1, 105, 5⟩, ⟨2, 105, 6⟩, ⟨3, 105, 7⟩, ⟨4, 105, 8⟩]

/-- Snapshot with two fully-rated entries: entry 110 with spread 1 (scores
8, 6, 8, 6) and entry 111 with spread 0 (four 7s). -/
def snapSpread : Snapshot where
  persons := [pA, pB, pC, pD]
  entries := [⟨110, 510, 1, 1, some 1⟩, ⟨111, 511, 1, 2, some 2⟩]
  movies := []
  ratings := [⟨1, 110, 8⟩, ⟨2, 110, 6⟩, ⟨3, 110, 8⟩, ⟨4, 110, 6⟩,
              ⟨1, 111, 7⟩, ⟨2, 111, 7⟩, ⟨3, 111, 7⟩, ⟨4, 111, 7⟩]

/-- The empty snapshot. -/
def snapEmpty : Snapshot where
  persons := []
  entries := []
  movies := []
  ratings := []

/-- C9: on an empty snapshot the engine returns a report (totally, without
error) whose award, movie-award, leaderboard and per-person collections are
empty, with no advantage holder and all summary counts zero. -/
theorem empty_snapshot_report :
    buildStatsData snapEmpty =
      ⟨none, 0, [], [], [], [], 0, 0, 0, 0⟩ := by
  rfl

/-- C1: the source's fully-rated threshold is the hardcoded rating count 4,
not the live participant count: with two known persons and one entry rated by
both, the spec's definition marks the entry fully rated while the source's
`HAVING COUNT(*) = 4` does not, leaving the fully-rated summary count at 0. -/
theorem fully_rated_threshold_hardcoded :
    specFullyRated snapPair 100 = true ∧
    isFullyRated snapPair 100 = false ∧
    (buildStatsData snapPair).fullyRatedMovies = 0 ∧
    snapPair.persons.length = 2 := by
  decide

/-- C2: the award scan is order-dependent on ties.  On a snapshot where both
persons have `FirstPickCount = 1`, `findMax` (the source's selection loop,
which ranges over an unordered Go map) returns person A for one iteration
order and person B for the other, so a tie does not resolve to a stable
winner. -/
theorem tie_break_order_dependent :
    findMax [personStatsOf snapTie pA, personStatsOf snapTie pB]
        (fun ps => (ps.firstPickCount : ℚ)) =
      (some pA, 1) ∧
    findMax [personStatsOf snapTie pB, personStatsOf snapTie pA]
        (fun ps => (ps.firstPickCount : ℚ)) =
      (some pB, 1) ∧
    pA ≠ pB := by
  decide

/-- C3 counterexample: with two persons and one entry rated 5 (by its picker
A) and 6, the entry is not fully rated in the source's sense, so the source's
`AvgDeviationFromGroup` for A is 0, while the claimed unrestricted mean is
`|5 - 11/2| = 1/2`. -/
theorem avg_deviation_not_unrestricted :
    avgDeviationOf snapPair 1 = 0 ∧ specAvgDeviation snapPair 1 = 1/2 := by
  constructor
  · norm_num [avgDeviationOf, devRow, entryAvgFR, isFullyRated, snapPair, ratMean,
      entryScores, ratingsFor, List.countP_cons, List.countP_nil, List.filterMap_cons]
  · norm_num [specAvgDeviation, snapPair, ratMean, entryScores, ratingsFor, pA, pB]

/-- C4 counterexample: in a round with unique positions whose minimum-position
entry has no picker but whose maximum-position entry does, the sum of
`FirstPickCount` is 0 while one round has a picked entry, so the two sums do
not both equal the number of rounds with a picked entry. -/
theorem pick_count_conservation_fails :
    UniquePositions snapPos ∧
    ¬(sumFirstPicks snapPos = roundsWithPicked snapPos ∧
      sumLastPicks snapPos = roundsWithPicked snapPos) := by
  decide

/-- C5 counterexample: person A picked entry 100 and gave it the lowest score
(5 against B's 6), but the entry has only two ratings, so the source counts
no self-lowest pick for A while the claimed unrestricted count is 1. -/
theorem self_lowest_not_unrestricted :
    specSelfLowest snapPair 1 = 1 ∧ selfLowestOf snapPair 1 = 0 := by
  decide

/-- Step function of `findMin`, named for the fold lemmas below. -/
def findMinStep (metric : PersonStats → ℚ) (acc : Option Person × Option ℚ)
    (ps : PersonStats) : Option Person × Option ℚ :=
  match acc.2 with
  | none => (some ps.person, some (metric ps))
  | some m => if metric ps < m then (some ps.person, some (metric ps)) else acc

theorem findMin_eq_foldl (l : List PersonStats) (metric : PersonStats → ℚ) :
    findMin l metric = l.foldl (findMinStep metric) (none, none) := by
  unfold findMin findMinStep
  rfl

theorem findMin_go_spec (metric : PersonStats → ℚ) (l : List PersonStats)
    (w : Person) (m : ℚ) :
    ∃ w' m', l.foldl (findMinStep metric) (some w, some m) = (some w', some m') ∧
      m' ≤ m ∧ (∀ q ∈ l, m' ≤ metric q) ∧
      ((m' = m ∧ w' = w) ∨ ∃ ps ∈ l, w' = ps.person ∧ m' = metric ps) := by
  induction l generalizing w m with
  | nil => exact ⟨w, m, rfl, le_refl m, by simp, Or.inl ⟨rfl, rfl⟩⟩
  | cons ps rest ih =>
    by_cases hlt : metric ps < m
    · have hstep : findMinStep metric (some w, some m) ps = (some ps.person, some (metric ps)) := by
        simp [findMinStep, hlt]
      obtain ⟨w', m', heq, hle, hall, horig⟩ := ih ps.person (metric ps)
      refine ⟨w', m', ?_, le_trans hle (le_of_lt hlt), ?_, ?_⟩
      · simpa [List.foldl_cons, hstep] using heq
      · intro q hq
        rcases List.mem_cons.mp hq with h | h
        · subst h; exact hle
        · exact hall q h
      · rcases horig with ⟨hm, hw⟩ | ⟨ps', hps', hw, hm⟩
        · exact Or.inr ⟨ps, List.mem_cons_self ps rest, hw, hm⟩
        · exact Or.inr ⟨ps', List.mem_cons.mpr (Or.inr hps'), hw, hm⟩
    · have hstep : findMinStep metric (some w, some m) ps = (some w, some m) := by
        simp [findMinStep, hlt]
      obtain ⟨w', m', heq, hle, hall, horig⟩ := ih w m
      refine ⟨w', m', ?_, hle, ?_, ?_⟩
      · simpa [List.foldl_cons, hstep] using heq
      · intro q hq
        rcases List.mem_cons.mp hq with h | h
        · subst h; exact le_trans hle (le_of_not_lt hlt)
        · exact hall q h
      · rcases horig with ⟨hm, hw⟩ | ⟨ps', hps', hw, hm⟩
        · exact Or.inl ⟨hm, hw⟩
        · exact Or.inr ⟨ps', List.mem_cons.mpr (Or.inr hps'), hw, hm⟩

/-- Characterization of `findMin` on a nonempty scan order: it returns the
person of some list element whose metric value is a lower bound of all
metric values in the list. -/
theorem findMin_spec (metric : PersonStats → ℚ) (ps0 : PersonStats) (rest : List PersonStats) :
    ∃ w' m', findMin (ps0 :: rest) metric = (some w', some m') ∧
      (∀ q ∈ ps0 :: rest, m' ≤ metric q) ∧
      ∃ ps ∈ ps0 :: rest, w' = ps.person ∧ m' = metric ps := by
  rw [findMin_eq_foldl]
  have hstep : findMinStep metric (none, none) ps0 = (some ps0.person, some (metric ps0)) := by
    simp [findMinStep]
  obtain ⟨w', m', heq, hle, hall, horig⟩ :=
    findMin_go_spec metric rest ps0.person (metric ps0)
  refine ⟨w', m', ?_, ?_, ?_⟩
  · simpa [List.foldl_cons, hstep] using heq
  · intro q hq
    rcases List.mem_cons.mp hq with h | h
    · subst h; exact hle
    · exact hall q h
  · rcases horig with ⟨hm, hw⟩ | ⟨ps', hps', hw, hm⟩
    · exact ⟨ps0, List.mem_cons_self ps0 rest, hw, by simp [hm]⟩
    · exact ⟨ps', List.mem_cons.mpr (Or.inr hps'), hw, hm⟩

theorem findMin_nil (metric : PersonStats → ℚ) : findMin [] metric = (none, none) := rfl

theorem ratMean_nonneg {l : List ℚ} (h : ∀ x ∈ l, 0 ≤ x) : 0 ≤ ratMean l := by
  exact div_nonneg (List.sum_nonneg h) (by positivity)

theorem ratMean_le_of_le {l : List ℚ} {c : ℚ} (hc : 0 ≤ c) (h : ∀ x ∈ l, x ≤ c) :
    ratMean l ≤ c := by
  rcases l with _ | ⟨x, xs⟩
  · simpa [ratMean] using hc
  · have hlen : (0:ℚ) < ((x :: xs).length : ℚ) := by
      simp
      positivity
    rw [ratMean, div_le_iff₀ hlen]
    have := List.sum_le_card_nsmul (x :: xs) c h
    simpa [nsmul_eq_mul, mul_comm] using this

theorem varPop_nonneg (l : List ℚ) : 0 ≤ varPop l := by
  refine ratMean_nonneg ?_
  intro x hx
  obtain ⟨a, _, rfl⟩ := List.mem_map.mp hx
  positivity

theorem varPop_le_of_bounds {l : List ℚ} (h : ∀ x ∈ l, 0 ≤ x ∧ x ≤ 10) :
    varPop l ≤ 100 := by
  refine ratMean_le_of_le (by norm_num) ?_
  intro y hy
  obtain ⟨x, hx, rfl⟩ := List.mem_map.mp hy
  have hμ0 : 0 ≤ ratMean l := ratMean_nonneg (fun z hz => (h z hz).1)
  have hμ10 : ratMean l ≤ 10 := ratMean_le_of_le (by norm_num) (fun z hz => (h z hz).2)
  have hx0 := (h x hx).1
  have hx10 := (h x hx).2
  have hsq : (x - ratMean l) ^ 2 ≤ 10 ^ 2 :=
    sq_le_sq' (by linarith) (by linarith)
  linarith

theorem givenScoresFR_bounds {s : Snapshot} {pid : Nat}
    (hscore : ∀ r ∈ s.ratings, 0 ≤ r.score ∧ r.score ≤ 10) :
    ∀ x ∈ givenScoresFR s pid, 0 ≤ x ∧ x ≤ 10 := by
  intro x hx
  obtain ⟨r, hr, rfl⟩ := List.mem_map.mp hx
  exact hscore r (List.mem_filter.mp hr).1

theorem mem_maxAward_id {a : Award} {l : List PersonStats} {i : String}
    {metric : PersonStats → ℚ} (h : a ∈ maxAward l i metric) : a.id = i := by
  unfold maxAward at h
  rcases hfm : findMax l metric with ⟨ow, v⟩
  rw [hfm] at h
  rcases ow with _ | w
  · simp at h
  · by_cases hv : 0 < v
    · simp [hv] at h
      subst h
      rfl
    · simp [hv] at h

theorem mem_minAward_id {a : Award} {l : List PersonStats} {i : String}
    {metric : PersonStats → ℚ} {bound : ℚ} (h : a ∈ minAward l i metric bound) :
    a.id = i := by
  unfold minAward at h
  rcases hfm : findMin l metric with ⟨ow, ov⟩
  rw [hfm] at h
  rcases ow with _ | w
  · simp at h
  · rcases ov with _ | v
    · simp at h
    · by_cases hv : v < bound
      · simp [hv] at h
        subst h
        rfl
      · simp [hv] at h

theorem mem_minAward_iff {a : Award} {l : List PersonStats} {i : String}
    {metric : PersonStats → ℚ} {bound : ℚ} :
    a ∈ minAward l i metric bound ↔
      ∃ w v, findMin l metric = (some w, some v) ∧ v < bound ∧ a = ⟨i, w⟩ := by
  rcases hfm : findMin l metric with ⟨ow, ov⟩
  have hdef : minAward l i metric bound =
      (match (ow, ov) with
       | (some w, some v) => if v < bound then ([⟨i, w⟩] : List Award) else []
       | _ => []) := by
    unfold minAward
    rw [hfm]
  rw [hdef]
  constructor
  · intro h
    rcases ow with _ | w
    · simp at h
    · rcases ov with _ | v
      · simp at h
      · by_cases hv : v < bound
        · simp [hv] at h
          exact ⟨w, v, rfl, hv, h⟩
        · simp [hv] at h
  · rintro ⟨w, v, h1, hv, rfl⟩
    rw [Prod.mk.injEq] at h1
    rw [h1.1, h1.2]
    simp [hv]

theorem minAward_sentinel_spec (s : Snapshot) (i : String) (metric : PersonStats → ℚ)
    (bound : ℚ)
    (hlt : ∀ p ∈ s.persons, 0 < (personStatsOf s p).moviesRated →
      metric (personStatsOf s p) < bound)
    (hzero : ∀ ps : PersonStats, ps.moviesRated = 0 → metric ps = bound) :
    ((minAward (allPersonStats s) i metric bound ≠ []) ↔
      ∃ p ∈ s.persons, 0 < (personStatsOf s p).moviesRated) ∧
    (∀ a ∈ minAward (allPersonStats s) i metric bound,
      ∃ p ∈ s.persons, a.winner = p ∧ 0 < (personStatsOf s p).moviesRated) := by
  have hwinner : ∀ a ∈ minAward (allPersonStats s) i metric bound,
      ∃ p ∈ s.persons, a.winner = p ∧ 0 < (personStatsOf s p).moviesRated := by
    intro a ha
    obtain ⟨w, v, hfm, hv, rfl⟩ := mem_minAward_iff.mp ha
    rcases hstats : allPersonStats s with _ | ⟨hd, tl⟩
    · rw [hstats, findMin_nil] at hfm
      simp at hfm
    · rw [hstats] at hfm
      obtain ⟨w', m', heq, _, ps, hps, hwps, hmps⟩ := findMin_spec metric hd tl
      rw [heq] at hfm
      have hw : w' = w := by
        have := congrArg Prod.fst hfm
        simpa using this
      have hm : m' = v := by
        have := congrArg Prod.snd hfm
        simpa using this
      have hpsmem : ps ∈ allPersonStats s := by rw [hstats]; exact hps
      obtain ⟨p, hp, hpps⟩ := List.mem_map.mp hpsmem
      have hmr : 0 < ps.moviesRated := by
        rcases Nat.eq_zero_or_pos ps.moviesRated with h0 | h
        · exfalso
          have := hzero ps h0
          rw [← hmps, hm] at this
          exact absurd this (ne_of_lt hv)
        · exact h
      refine ⟨p, hp, ?_, ?_⟩
      · show w = p
        rw [← hw, hwps, ← hpps]
        rfl
      · rw [hpps]; exact hmr
  refine ⟨⟨?_, ?_⟩, hwinner⟩
  · intro hne
    obtain ⟨a, ha⟩ := List.exists_mem_of_ne_nil _ hne
    obtain ⟨p, hp, _, hmr⟩ := hwinner a ha
    exact ⟨p, hp, hmr⟩
  · rintro ⟨p, hp, hmr⟩
    have hmem : personStatsOf s p ∈ allPersonStats s := List.mem_map_of_mem _ hp
    rcases hstats : allPersonStats s with _ | ⟨hd, tl⟩
    · rw [hstats] at hmem; simp at hmem
    · obtain ⟨w', m', heq, hlb, _, _, _, _⟩ := findMin_spec metric hd tl
      have hv : m' < bound := by
        have h1 : m' ≤ metric (personStatsOf s p) := by
          refine hlb _ ?_
          rw [← hstats]; exact hmem
        exact lt_of_le_of_lt h1 (hlt p hp hmr)
      have hmem2 : (⟨i, w'⟩ : Award) ∈ minAward (hd :: tl) i metric bound :=
        mem_minAward_iff.mpr ⟨w', m', heq, hv, rfl⟩
      exact List.ne_nil_of_mem hmem2

theorem mem_calculateAwards_harsh {l : List PersonStats} {a : Award} :
    (a ∈ calculateAwards l ∧ a.id = "harsh_critic") ↔
      a ∈ minAward l "harsh_critic"
        (fun ps => if ps.moviesRated == 0 then 999 else ps.avgRatingGiven) 999 := by
  constructor
  · rintro ⟨hmem, hid⟩
    unfold calculateAwards at hmem
    simp only [List.mem_append] at hmem
    rcases hmem with ((((((((((h | h) | h) | h) | h) | h) | h) | h) | h) | h) | h) | h
    all_goals
      first
      | exact h
      | (exfalso
         first
         | (have hx := mem_maxAward_id h; rw [hid] at hx; simp at hx)
         | (have hx := mem_minAward_id h; rw [hid] at hx; simp at hx))
  · intro h
    refine ⟨?_, mem_minAward_id h⟩
    unfold calculateAwards
    simp only [List.mem_append]
    tauto

theorem mem_calculateAwards_steady {l : List PersonStats} {a : Award} :
    (a ∈ calculateAwards l ∧ a.id = "steady_hand") ↔
      a ∈ minAward l "steady_hand"
        (fun ps => if ps.moviesRated == 0 then 998001 else ps.ratingVariance) 998001 := by
  constructor
  · rintro ⟨hmem, hid⟩
    unfold calculateAwards at hmem
    simp only [List.mem_append] at hmem
    rcases hmem with ((((((((((h | h) | h) | h) | h) | h) | h) | h) | h) | h) | h) | h
    all_goals
      first
      | exact h
      | (exfalso
         first
         | (have hx := mem_maxAward_id h; rw [hid] at hx; simp at hx)
         | (have hx := mem_minAward_id h; rw [hid] at hx; simp at hx))
  · intro h
    refine ⟨?_, mem_minAward_id h⟩
    unfold calculateAwards
    simp only [List.mem_append]
    tauto

/-- C10: under the score-range invariant, the `999` no-data sentinel of the
Harsh Critic and Steady Hand scans cannot collide with a real metric value
(avg given is at most 10 and the rating spread at most 100 in variance
form), so each of the two awards is emitted iff some person has
`MoviesRated > 0`, and the winner always has `MoviesRated > 0`. -/
theorem sentinel_exclusion_awards (s : Snapshot)
    (hscore : ∀ r ∈ s.ratings, 0 ≤ r.score ∧ r.score ≤ 10) :
    ((∃ a ∈ calculateAwards (allPersonStats s), a.id = "harsh_critic") ↔
      ∃ p ∈ s.persons, 0 < (personStatsOf s p).moviesRated) ∧
    (∀ a ∈ calculateAwards (allPersonStats s), a.id = "harsh_critic" →
      ∃ p ∈ s.persons, a.winner = p ∧ 0 < (personStatsOf s p).moviesRated) ∧
    ((∃ a ∈ calculateAwards (allPersonStats s), a.id = "steady_hand") ↔
      ∃ p ∈ s.persons, 0 < (personStatsOf s p).moviesRated) ∧
    (∀ a ∈ calculateAwards (allPersonStats s), a.id = "steady_hand" →
      ∃ p ∈ s.persons, a.winner = p ∧ 0 < (personStatsOf s p).moviesRated) := by
  have hgb : ∀ pid, avgRatingGivenOf s pid ≤ 10 := fun pid =>
    ratMean_le_of_le (by norm_num) (fun x hx => (givenScoresFR_bounds hscore x hx).2)
  have hvb : ∀ pid, ratingVarianceOf s pid ≤ 100 := fun pid =>
    varPop_le_of_bounds (givenScoresFR_bounds hscore)
  have hh := minAward_sentinel_spec s "harsh_critic"
      (fun ps => if ps.moviesRated == 0 then 999 else ps.avgRatingGiven) 999
      (by
        intro p hp hmr
        have hne : ((personStatsOf s p).moviesRated == 0) = false :=
          beq_eq_false_iff_ne.mpr (Nat.pos_iff_ne_zero.mp hmr)
        simp only [hne, Bool.false_eq_true, if_false]
        have hfld : (personStatsOf s p).avgRatingGiven = avgRatingGivenOf s p.id := rfl
        rw [hfld]
        linarith [hgb p.id])
      (by intro ps h0; simp [h0])
  have hs := minAward_sentinel_spec s "steady_hand"
      (fun ps => if ps.moviesRated == 0 then 998001 else ps.ratingVariance) 998001
      (by
        intro p hp hmr
        have hne : ((personStatsOf s p).moviesRated == 0) = false :=
          beq_eq_false_iff_ne.mpr (Nat.pos_iff_ne_zero.mp hmr)
        simp only [hne, Bool.false_eq_true, if_false]
        have hfld : (personStatsOf s p).ratingVariance = ratingVarianceOf s p.id := rfl
        rw [hfld]
        linarith [hvb p.id])
      (by intro ps h0; simp [h0])
  refine ⟨⟨?_, ?_⟩, ?_, ⟨?_, ?_⟩, ?_⟩
  · rintro ⟨a, ha, hid⟩
    exact hh.1.mp (List.ne_nil_of_mem (mem_calculateAwards_harsh.mp ⟨ha, hid⟩))
  · intro h
    obtain ⟨a, ha⟩ := List.exists_mem_of_ne_nil _ (hh.1.mpr h)
    exact ⟨a, (mem_calculateAwards_harsh.mpr ha).1, (mem_calculateAwards_harsh.mpr ha).2⟩
  · intro a ha hid
    exact hh.2 a (mem_calculateAwards_harsh.mp ⟨ha, hid⟩)
  · rintro ⟨a, ha, hid⟩
    exact hs.1.mp (List.ne_nil_of_mem (mem_calculateAwards_steady.mp ⟨ha, hid⟩))
  · intro h
    obtain ⟨a, ha⟩ := List.exists_mem_of_ne_nil _ (hs.1.mpr h)
    exact ⟨a, (mem_calculateAwards_steady.mpr ha).1, (mem_calculateAwards_steady.mpr ha).2⟩
  · intro a ha hid
    exact hs.2 a (mem_calculateAwards_steady.mp ⟨ha, hid⟩)

/-- Witness for `sentinel_exclusion_awards` at the concrete snapshot
`snapFour`, whose four scores 5, 6, 7, 8 satisfy the score-range
hypothesis. -/
theorem sentinel_exclusion_awards_witness :
    (∀ r ∈ snapFour.ratings, 0 ≤ r.score ∧ r.score ≤ 10) ∧
    (((∃ a ∈ calculateAwards (allPersonStats snapFour), a.id = "harsh_critic") ↔
        ∃ p ∈ snapFour.persons, 0 < (personStatsOf snapFour p).moviesRated) ∧
      (∀ a ∈ calculateAwards (allPersonStats snapFour), a.id = "harsh_critic" →
        ∃ p ∈ snapFour.persons, a.winner = p ∧ 0 < (personStatsOf snapFour p).moviesRated) ∧
      ((∃ a ∈ calculateAwards (allPersonStats snapFour), a.id = "steady_hand") ↔
        ∃ p ∈ snapFour.persons, 0 < (personStatsOf snapFour p).moviesRated) ∧
      (∀ a ∈ calculateAwards (allPersonStats snapFour), a.id = "steady_hand" →
        ∃ p ∈ snapFour.persons, a.winner = p ∧ 0 < (personStatsOf snapFour p).moviesRated)) :=
  ⟨by decide, sentinel_exclusion_awards snapFour (by decide)⟩

/-- C3 amended: `AvgDeviationFromGroup` equals the mean absolute difference
between each rating the person gave *on a fully-rated entry* and that entry's
average rating — the same completeness filter as the given/received metrics,
not the unrestricted mean the spec claims. -/
theorem avg_deviation_fully_rated_only (s : Snapshot) (pid : Nat) :
    avgDeviationOf s pid = specAvgDeviationFR s pid := by
  unfold avgDeviationOf specAvgDeviationFR
  suffices h : ∀ l : List Rating,
      l.filterMap (devRow s pid) =
      ((l.filter (fun r => r.personId == pid)).filter
          (fun r => isFullyRated s r.entryId)).map
        (fun r => |r.score - ratMean (entryScores s r.entryId)|) by
    rw [h]
  intro l
  induction l with
  | nil => rfl
  | cons r t ih =>
    by_cases hp : (r.personId == pid) = true
    · by_cases hf : isFullyRated s r.entryId = true
      · have hfr : devRow s pid r =
            some (|r.score - ratMean (entryScores s r.entryId)|) := by
          unfold devRow entryAvgFR
          rw [if_pos hp, if_pos hf]
          rfl
        rw [List.filterMap_cons_some hfr, List.filter_cons, if_pos hp,
          List.filter_cons, if_pos hf, List.map_cons, ih]
      · have hfr : devRow s pid r = none := by
          unfold devRow entryAvgFR
          rw [if_pos hp, if_neg hf]
          rfl
        rw [List.filterMap_cons_none hfr, List.filter_cons, if_pos hp,
          List.filter_cons, if_neg hf, ih]
    · have hfr : devRow s pid r = none := by
        unfold devRow
        rw [if_neg hp]
      rw [List.filterMap_cons_none hfr, List.filter_cons, if_neg hp, ih]

/-- C5 amended: `SelfLowestCount` counts, among *fully-rated* entries only,
those the person picked and rated (weakly) lowest; entries with fewer than 4
ratings never contribute.  The at-most-one-rating-per-pair invariant makes
the source's row count agree with the entry count. -/
theorem self_lowest_fully_rated_only (s : Snapshot) (pid : Nat)
    (honce : ∀ e ∈ s.entries,
      (s.ratings.filter (fun r => r.entryId == e.id && r.personId == pid)).length ≤ 1) :
    selfLowestOf s pid = specSelfLowestFR s pid := by
  unfold selfLowestOf specSelfLowestFR
  suffices h : ∀ l : List Entry,
      (∀ e ∈ l,
        (s.ratings.filter (fun r => r.entryId == e.id && r.personId == pid)).length ≤ 1) →
      ((l.filter (fun e => e.pickedBy == some pid)).map (fun e =>
        (s.ratings.filter (fun r =>
          r.entryId == e.id && r.personId == pid &&
            entryMinFR s e.id == some r.score)).length)).sum =
      l.countP (fun e =>
        e.pickedBy == some pid && isFullyRated s e.id &&
        s.ratings.any (fun r =>
          r.entryId == e.id && r.personId == pid &&
            listMin? (entryScores s e.id) == some r.score)) by
    exact h s.entries honce
  intro l hl
  induction l with
  | nil => rfl
  | cons e t ih =>
    have ht : ∀ x ∈ t,
        (s.ratings.filter (fun r => r.entryId == x.id && r.personId == pid)).length ≤ 1 :=
      fun x hx => hl x (List.mem_cons.mpr (Or.inr hx))
    have he := hl e (List.mem_cons_self e t)
    rw [List.filter_cons, List.countP_cons]
    by_cases hp : (e.pickedBy == some pid) = true
    · have hcell :
          (s.ratings.filter (fun r =>
            r.entryId == e.id && r.personId == pid &&
              entryMinFR s e.id == some r.score)).length =
          if (isFullyRated s e.id &&
              s.ratings.any (fun r =>
                r.entryId == e.id && r.personId == pid &&
                  listMin? (entryScores s e.id) == some r.score)) = true
          then 1 else 0 := by
        by_cases hf : isFullyRated s e.id = true
        · have hmin : entryMinFR s e.id = listMin? (entryScores s e.id) := by
            unfold entryMinFR
            rw [if_pos hf]
          by_cases hany : (s.ratings.any (fun r =>
              r.entryId == e.id && r.personId == pid &&
                listMin? (entryScores s e.id) == some r.score)) = true
          · obtain ⟨r0, hr0, hpr0⟩ := List.any_eq_true.mp hany
            have hmem : r0 ∈ s.ratings.filter (fun r =>
                r.entryId == e.id && r.personId == pid &&
                  entryMinFR s e.id == some r.score) := by
              rw [List.mem_filter]
              refine ⟨hr0, ?_⟩
              rw [hmin]
              exact hpr0
            have h1 : 1 ≤ (s.ratings.filter (fun r =>
                r.entryId == e.id && r.personId == pid &&
                  entryMinFR s e.id == some r.score)).length := by
              have := List.ne_nil_of_mem hmem
              exact List.length_pos.mpr this
            have h2 : (s.ratings.filter (fun r =>
                r.entryId == e.id && r.personId == pid &&
                  entryMinFR s e.id == some r.score)).length ≤ 1 := by
              refine le_trans ?_ he
              rw [← List.countP_eq_length_filter, ← List.countP_eq_length_filter]
              refine List.countP_mono_left ?_
              intro r hr hpred
              have h3 := (Bool.and_eq_true _ _).mp hpred
              have h4 := (Bool.and_eq_true _ _).mp h3.1
              rw [h4.1, h4.2]
              rfl
            have hcond : (isFullyRated s e.id &&
                s.ratings.any (fun r =>
                  r.entryId == e.id && r.personId == pid &&
                    listMin? (entryScores s e.id) == some r.score)) = true := by
              rw [hf, hany]
              rfl
            rw [if_pos hcond]
            omega
          · have hany' : (s.ratings.any (fun r =>
                r.entryId == e.id && r.personId == pid &&
                  listMin? (entryScores s e.id) == some r.score)) = false :=
              Bool.eq_false_iff.mpr hany
            have hnil : s.ratings.filter (fun r =>
                r.entryId == e.id && r.personId == pid &&
                  entryMinFR s e.id == some r.score) = [] := by
              rw [List.filter_eq_nil_iff]
              intro r hr hpred
              have habs : (s.ratings.any (fun r =>
                  r.entryId == e.id && r.personId == pid &&
                    listMin? (entryScores s e.id) == some r.score)) = true := by
                refine List.any_eq_true.mpr ⟨r, hr, ?_⟩
                rw [← hmin]
                exact hpred
              exact hany habs
            have hcond : ¬((isFullyRated s e.id &&
                s.ratings.any (fun r =>
                  r.entryId == e.id && r.personId == pid &&
                    listMin? (entryScores s e.id) == some r.score)) = true) := by
              rw [hf, hany']
              simp
            rw [hnil, if_neg hcond]
            rfl
        · have hmin : entryMinFR s e.id = none := by
            unfold entryMinFR
            rw [if_neg hf]
          have hf' : isFullyRated s e.id = false := Bool.eq_false_iff.mpr hf
          have hnil : s.ratings.filter (fun r =>
              r.entryId == e.id && r.personId == pid &&
                entryMinFR s e.id == some r.score) = [] := by
            rw [List.filter_eq_nil_iff]
            intro r hr hpred
            rw [hmin] at hpred
            have h3 := (Bool.and_eq_true _ _).mp hpred
            simp at h3
          have hcond : ¬((isFullyRated s e.id &&
              s.ratings.any (fun r =>
                r.entryId == e.id && r.personId == pid &&
                  listMin? (entryScores s e.id) == some r.score)) = true) := by
            rw [hf']
            simp
          rw [hnil, if_neg hcond]
          rfl
      rw [if_pos hp, List.map_cons, List.sum_cons, ih ht, hcell]
      simp only [hp, Bool.true_and]
      exact Nat.add_comm _ _
    · have hp' : (e.pickedBy == some pid) = false := Bool.eq_false_iff.mpr hp
      rw [if_neg hp]
      simp only [hp', Bool.false_and, Bool.false_eq_true, if_false]
      simpa using ih ht

/-- Witness for `self_lowest_fully_rated_only` at `snapFour` and person A
(id 1), whose entry has exactly 4 ratings. -/
theorem self_lowest_fully_rated_only_witness :
    (∀ e ∈ snapFour.entries,
      (snapFour.ratings.filter (fun r => r.entryId == e.id && r.personId == 1)).length ≤ 1) ∧
    selfLowestOf snapFour 1 = specSelfLowestFR snapFour 1 :=
  ⟨by decide, self_lowest_fully_rated_only snapFour 1 (by decide)⟩

theorem countP_eq_sum_map_ite {α : Type} (l : List α) (p : α → Bool) :
    l.countP p = (l.map (fun a => if p a = true then 1 else 0)).sum := by
  induction l with
  | nil => rfl
  | cons a t ih =>
    rw [List.countP_cons, List.map_cons, List.sum_cons, ih]
    exact Nat.add_comm _ _

theorem countP_or_disjoint {α : Type} (l : List α) (p q R : α → Bool)
    (hd : ∀ a ∈ l, ¬(p a = true ∧ q a = true)) :
    l.countP (fun a => (p a || q a) && R a) =
      l.countP (fun a => p a && R a) + l.countP (fun a => q a && R a) := by
  rw [countP_eq_sum_map_ite, countP_eq_sum_map_ite, countP_eq_sum_map_ite,
    ← List.sum_map_add]
  congr 1
  refine List.map_congr_left ?_
  intro a ha
  by_cases hp : p a = true
  · have hq : q a = false :=
      Bool.eq_false_iff.mpr (fun h => hd a ha ⟨hp, h⟩)
    cases hR : R a <;> simp [hp, hq, hR]
  · have hp' : p a = false := Bool.eq_false_iff.mpr hp
    cases hR : R a <;> cases hq : q a <;> simp [hp', hq, hR]

theorem countP_key_groups {α : Type} (key : α → Int) (Q : α → Bool) (l : List α) :
    ∀ ks : List Int, ks.Nodup →
      l.countP (fun e => ks.any (fun g => key e == g) && Q e) =
        (ks.map (fun g => l.countP (fun e => key e == g && Q e))).sum := by
  intro ks
  induction ks with
  | nil =>
    intro _
    rw [List.map_nil, List.sum_nil, List.countP_eq_zero]
    intro a _
    simp
  | cons g ks ih =>
    intro hnd
    have hg : g ∉ ks := (List.nodup_cons.mp hnd).1
    have hnd' : ks.Nodup := (List.nodup_cons.mp hnd).2
    rw [List.map_cons, List.sum_cons, ← ih hnd']
    have hsplit := countP_or_disjoint l (fun e => key e == g)
      (fun e => ks.any (fun x => key e == x)) Q ?_
    · rw [← hsplit]
      refine List.countP_congr ?_
      intro e _
      simp [List.any_cons]
    · intro a _ hboth
      obtain ⟨h1, h2⟩ := hboth
      obtain ⟨x, hx, hx2⟩ := List.any_eq_true.mp h2
      have e1 : key a = g := by simpa using h1
      have e2 : key a = x := by simpa using hx2
      rw [← e2, e1] at hx
      exact hg hx

theorem countP_partition_key {α : Type} (key : α → Int) (Q : α → Bool) (l : List α) :
    l.countP Q =
      (((l.map key).dedup).map (fun g => l.countP (fun e => key e == g && Q e))).sum := by
  rw [← countP_key_groups key Q l ((l.map key).dedup) (List.nodup_dedup _)]
  refine List.countP_congr ?_
  intro e he
  have hin : key e ∈ (l.map key).dedup :=
    List.mem_dedup.mpr (List.mem_map_of_mem key he)
  have hany : ((l.map key).dedup.any (fun g => key e == g)) = true :=
    List.any_eq_true.mpr ⟨key e, hin, by simp⟩
  rw [hany]
  simp

theorem countP_unique_satisfier {α : Type} [DecidableEq α] (l : List α) (hN : l.Nodup)
    (R S : α → Bool)
    (hu : ∀ a ∈ l, ∀ b ∈ l, R a = true → R b = true → a = b) :
    l.countP (fun e => R e && S e) =
      if l.any (fun e => R e && S e) = true then 1 else 0 := by
  induction l with
  | nil => rfl
  | cons a t ih =>
    have ha : a ∉ t := (List.nodup_cons.mp hN).1
    have hN' : t.Nodup := (List.nodup_cons.mp hN).2
    have hut : ∀ x ∈ t, ∀ y ∈ t, R x = true → R y = true → x = y :=
      fun x hx y hy => hu x (List.mem_cons.mpr (Or.inr hx)) y (List.mem_cons.mpr (Or.inr hy))
    rw [List.countP_cons]
    by_cases hRa : (R a && S a) = true
    · have hzero : t.countP (fun e => R e && S e) = 0 := by
        rw [List.countP_eq_zero]
        intro b hb hpred
        have hRb := ((Bool.and_eq_true _ _).mp hpred).1
        have hRa' := ((Bool.and_eq_true _ _).mp hRa).1
        have hba : b = a :=
          hu b (List.mem_cons.mpr (Or.inr hb)) a (List.mem_cons_self a t) hRb hRa'
        rw [hba] at hb
        exact ha hb
      rw [hzero, hRa]
      simp [List.any_cons, hRa]
    · have hRa' : (R a && S a) = false := Bool.eq_false_iff.mpr hRa
      rw [ih hN' hut, hRa']
      simp [List.any_cons, hRa']

theorem sum_countP_by_picker (persons : List Person) (P : Entry → Bool) :
    ∀ entries : List Entry,
      (persons.map (fun p => p.id)).Nodup →
      (∀ e ∈ entries, ∀ pid, e.pickedBy = some pid → pid ∈ persons.map (fun p => p.id)) →
      (persons.map (fun p =>
        entries.countP (fun e => e.pickedBy == some p.id && P e))).sum =
        entries.countP (fun e => e.pickedBy.isSome && P e) := by
  intro entries
  induction entries with
  | nil =>
    intro _ _
    simp
  | cons e t ih =>
    intro hN hFK
    have hFKt : ∀ x ∈ t, ∀ pid, x.pickedBy = some pid → pid ∈ persons.map (fun p => p.id) :=
      fun x hx => hFK x (List.mem_cons.mpr (Or.inr hx))
    have hmap : persons.map (fun p =>
        (e :: t).countP (fun x => x.pickedBy == some p.id && P x)) =
        persons.map (fun p =>
          t.countP (fun x => x.pickedBy == some p.id && P x) +
            (if (e.pickedBy == some p.id && P e) = true then 1 else 0)) := by
      refine List.map_congr_left ?_
      intro p _
      rw [List.countP_cons]
    rw [hmap, List.sum_map_add, ih hN hFKt, List.countP_cons]
    congr 1
    by_cases hPe : P e = true
    · cases hpk : e.pickedBy with
      | none => simp [hpk]
      | some pid =>
        have hpidmem : pid ∈ persons.map (fun p => p.id) :=
          hFK e (List.mem_cons_self e t) pid hpk
        rw [← countP_eq_sum_map_ite]
        have hcongr : persons.countP (fun p => (some pid == some p.id : Bool) && P e) =
            persons.countP (fun p => p.id == pid) := by
          refine List.countP_congr ?_
          intro p _
          rw [hPe]
          constructor
          · intro h
            have h1 := ((Bool.and_eq_true _ _).mp h).1
            have h2 : pid = p.id := by simpa using h1
            exact beq_iff_eq.mpr h2.symm
          · intro h
            have h2 : p.id = pid := beq_iff_eq.mp h
            simp [h2]
        rw [hcongr]
        have hmapc : persons.countP (fun p => p.id == pid) =
            (persons.map (fun p => p.id)).countP (fun x => x == pid) := by
          rw [List.countP_map]
          rfl
        rw [hmapc, ← List.count_eq_countP, List.count_eq_one_of_mem hN hpidmem]
        simp [hPe]
    · have hPe' : P e = false := Bool.eq_false_iff.mpr hPe
      simp [hPe']

theorem conservation_generic (s : Snapshot) (X : Entry → Bool)
    (hN : (s.persons.map (fun p => p.id)).Nodup)
    (hE : s.entries.Nodup)
    (hFK : ∀ e ∈ s.entries, ∀ pid, e.pickedBy = some pid →
      pid ∈ s.persons.map (fun p => p.id))
    (huniq : ∀ a ∈ s.entries, ∀ b ∈ s.entries, a.groupNumber = b.groupNumber →
      X a = true → X b = true → a = b) :
    (s.persons.map (fun p =>
      s.entries.countP (fun e => e.pickedBy == some p.id && X e))).sum =
      (groupsOf s).countP (fun g =>
        s.entries.any (fun e => e.groupNumber == g && X e && e.pickedBy.isSome)) := by
  rw [sum_countP_by_picker s.persons X s.entries hN hFK]
  rw [countP_partition_key (fun e => e.groupNumber)
    (fun e => e.pickedBy.isSome && X e) s.entries]
  rw [countP_eq_sum_map_ite (groupsOf s)]
  congr 1
  refine List.map_congr_left ?_
  intro g _
  have hshuffle : s.entries.countP (fun e =>
      e.groupNumber == g && (e.pickedBy.isSome && X e)) =
      s.entries.countP (fun e => (e.groupNumber == g && X e) && e.pickedBy.isSome) := by
    refine List.countP_congr ?_
    intro e _
    cases h1 : (e.groupNumber == g) <;> cases h2 : X e <;>
      cases h3 : e.pickedBy.isSome <;> simp [h1, h2, h3]
  have huniq' : ∀ a ∈ s.entries, ∀ b ∈ s.entries,
      (a.groupNumber == g && X a) = true → (b.groupNumber == g && X b) = true → a = b := by
    intro a hamem b hbmem hba hbb
    obtain ⟨ha1, ha2⟩ := (Bool.and_eq_true _ _).mp hba
    obtain ⟨hb1, hb2⟩ := (Bool.and_eq_true _ _).mp hbb
    have hga : a.groupNumber = g := by simpa using ha1
    have hgb : b.groupNumber = g := by simpa using hb1
    exact huniq a hamem b hbmem (hga.trans hgb.symm) ha2 hb2
  rw [hshuffle, countP_unique_satisfier s.entries hE
    (fun e => e.groupNumber == g && X e) (fun e => e.pickedBy.isSome) huniq']

/-- C4 amended: with unique positions per round, the sum of `FirstPickCount`
(resp. `LastPickCount`) over all persons equals the number of rounds whose
minimum-position (resp. maximum-position) entry has a picker — not the number
of rounds with *any* picked entry, as the claim states. -/
theorem pick_count_conservation_amended (s : Snapshot)
    (hN : (s.persons.map (fun p => p.id)).Nodup)
    (hE : s.entries.Nodup)
    (hFK : ∀ e ∈ s.entries, ∀ pid, e.pickedBy = some pid →
      pid ∈ s.persons.map (fun p => p.id))
    (hUP : UniquePositions s) :
    sumFirstPicks s = roundsMinPicked s ∧ sumLastPicks s = roundsMaxPicked s := by
  have hmin : ∀ a ∈ s.entries, ∀ b ∈ s.entries, a.groupNumber = b.groupNumber →
      isGroupMinB s a = true → isGroupMinB s b = true → a = b := by
    intro a hamem b hbmem hgrp hxa hxb
    have h1 := List.all_eq_true.mp hxa b hbmem
    have h2 := List.all_eq_true.mp hxb a hamem
    simp only [Bool.or_eq_true, bne_iff_ne, decide_eq_true_eq] at h1 h2
    have hab : a.position ≤ b.position := by
      rcases h1 with h | h
      · exact absurd hgrp.symm h
      · exact h
    have hba : b.position ≤ a.position := by
      rcases h2 with h | h
      · exact absurd hgrp h
      · exact h
    exact hUP a hamem b hbmem hgrp (le_antisymm hab hba)
  have hmax : ∀ a ∈ s.entries, ∀ b ∈ s.entries, a.groupNumber = b.groupNumber →
      isGroupMaxB s a = true → isGroupMaxB s b = true → a = b := by
    intro a hamem b hbmem hgrp hxa hxb
    have h1 := List.all_eq_true.mp hxa b hbmem
    have h2 := List.all_eq_true.mp hxb a hamem
    simp only [Bool.or_eq_true, bne_iff_ne, decide_eq_true_eq] at h1 h2
    have hab : b.position ≤ a.position := by
      rcases h1 with h | h
      · exact absurd hgrp.symm h
      · exact h
    have hba : a.position ≤ b.position := by
      rcases h2 with h | h
      · exact absurd hgrp h
      · exact h
    exact hUP a hamem b hbmem hgrp (le_antisymm hba hab)
  exact ⟨conservation_generic s (isGroupMinB s) hN hE hFK hmin,
    conservation_generic s (isGroupMaxB s) hN hE hFK hmax⟩

/-- Witness for `pick_count_conservation_amended` at `snapTie`: both sums and
both round counts evaluate to 2. -/
theorem pick_count_conservation_amended_witness :
    (snapTie.persons.map (fun p => p.id)).Nodup ∧
    snapTie.entries.Nodup ∧
    (∀ e ∈ snapTie.entries, ∀ pid, e.pickedBy = some pid →
      pid ∈ snapTie.persons.map (fun p => p.id)) ∧
    UniquePositions snapTie ∧
    (sumFirstPicks snapTie = roundsMinPicked snapTie ∧
      sumLastPicks snapTie = roundsMaxPicked snapTie) := by
  have hfk : ∀ e ∈ snapTie.entries, ∀ pid, e.pickedBy = some pid →
      pid ∈ snapTie.persons.map (fun p => p.id) := by
    intro e he pid hpk
    have he' : e ∈ [(⟨101, 500, 1, 1, some 1⟩ : Entry), ⟨102, 501, 2, 1, some 2⟩] := he
    have hpid : pid = 1 ∨ pid = 2 := by
      rcases List.mem_cons.mp he' with rfl | he2
      · left
        simpa using hpk.symm
      · rcases List.mem_cons.mp he2 with rfl | he3
        · right
          simpa using hpk.symm
        · simp at he3
    rcases hpid with rfl | rfl <;> decide
  exact ⟨by decide, by decide, hfk, by decide,
    pick_count_conservation_amended snapTie (by decide) (by decide) hfk (by decide)⟩

theorem fullyRatedIds_nodup (s : Snapshot) : (fullyRatedIds s).Nodup :=
  List.Nodup.filter _ (List.nodup_dedup _)

theorem movieVariance_mem (s : Snapshot) :
    ∀ x ∈ movieVariance s,
      x.entryId ∈ fullyRatedIds s ∧ x.spread = varPop (entryScores s x.entryId) := by
  intro x hx
  have hperm := List.perm_insertionSort statGE
    ((fullyRatedIds s).map (fun eid => (⟨eid, varPop (entryScores s eid)⟩ : EntryStats)))
  have hx' := hperm.mem_iff.mp hx
  obtain ⟨eid, hid, rfl⟩ := List.mem_map.mp hx'
  exact ⟨hid, rfl⟩

theorem movieVariance_ids_perm (s : Snapshot) :
    ((movieVariance s).map (fun x => x.entryId)).Perm (fullyRatedIds s) := by
  have hperm := List.perm_insertionSort statGE
    ((fullyRatedIds s).map (fun eid => (⟨eid, varPop (entryScores s eid)⟩ : EntryStats)))
  have h := hperm.map (fun x : EntryStats => x.entryId)
  rw [List.map_map] at h
  have h2 : (fullyRatedIds s).map ((fun x : EntryStats => x.entryId) ∘
      fun eid => (⟨eid, varPop (entryScores s eid)⟩ : EntryStats)) = fullyRatedIds s := by
    rw [show ((fun x : EntryStats => x.entryId) ∘
        fun eid => (⟨eid, varPop (entryScores s eid)⟩ : EntryStats)) =
        fun eid => eid from rfl]
    exact List.map_id' _
  rw [h2] at h
  exact h

theorem sorted_statGE_getLast :
    ∀ l : List EntryStats, List.Sorted statGE l →
      ∀ z, l.getLast? = some z → ∀ x ∈ l, z.spread ≤ x.spread := by
  intro l
  induction l with
  | nil =>
    intro _ z hz
    simp at hz
  | cons a t ih =>
    intro hs z hz x hx
    rcases t with _ | ⟨b, t2⟩
    · have hza : a = z := by simpa using hz
      have hxa : x = a := by simpa using hx
      rw [hxa, ← hza]
    · have hz' : (b :: t2).getLast? = some z := by
        rw [← hz]
        rfl
      have hsp := List.sorted_cons.mp hs
      have hzmem : z ∈ b :: t2 := by
        obtain ⟨ys, hys⟩ := List.getLast?_eq_some_iff.mp hz'
        rw [hys]
        simp
      rcases List.mem_cons.mp hx with rfl | hx2
      · exact hsp.1 z hzmem
      · exact ih hsp.2 z hz' x hx2

/-- C6: the Hype Train award (when present) names a fully-rated entry of
maximum spread, positive; the Unifier (when present) names a fully-rated
entry of minimum spread and requires at least two fully-rated entries; and
the two movie awards never name the same entry. -/
theorem movie_awards_spec (s : Snapshot) :
    (∀ a ∈ calculateMovieAwards (movieVariance s), a.id = "hype_train" →
      a.entryId ∈ fullyRatedIds s ∧ a.spread = varPop (entryScores s a.entryId) ∧
      0 < a.spread ∧ ∀ x ∈ movieVariance s, x.spread ≤ a.spread) ∧
    (∀ a ∈ calculateMovieAwards (movieVariance s), a.id = "unifier" →
      a.entryId ∈ fullyRatedIds s ∧ a.spread = varPop (entryScores s a.entryId) ∧
      2 ≤ (fullyRatedIds s).length ∧ ∀ x ∈ movieVariance s, a.spread ≤ x.spread) ∧
    (∀ a ∈ calculateMovieAwards (movieVariance s),
      ∀ b ∈ calculateMovieAwards (movieVariance s),
        a.id = "hype_train" → b.id = "unifier" → a.entryId ≠ b.entryId) := by
  have hsort : List.Sorted statGE (movieVariance s) :=
    List.sorted_insertionSort statGE _
  have hmem := movieVariance_mem s
  have hidsperm := movieVariance_ids_perm s
  rcases hmv : movieVariance s with _ | ⟨hd, tl⟩
  · refine ⟨?_, ?_, ?_⟩ <;> intro a ha <;> simp [calculateMovieAwards] at ha
  · rw [hmv] at hsort hmem hidsperm
    have hhd : hd ∈ movieVariance s := by rw [hmv]; exact List.mem_cons_self hd tl
    have hhdmv : hd ∈ hd :: tl := List.mem_cons_self hd tl
    have hhype : ∀ a ∈ calculateMovieAwards (hd :: tl), a.id = "hype_train" →
        a = ⟨"hype_train", hd.entryId, hd.spread⟩ ∧ 0 < hd.spread := by
      intro a ha hid
      unfold calculateMovieAwards at ha
      rw [List.mem_append] at ha
      rcases ha with ha | ha
      · by_cases hsp : 0 < hd.spread
        · rw [if_pos hsp] at ha
          have : a = ⟨"hype_train", hd.entryId, hd.spread⟩ := by simpa using ha
          exact ⟨this, hsp⟩
        · rw [if_neg hsp] at ha
          simp at ha
      · exfalso
        rcases htl : tl.getLast? with _ | z
        · rw [htl] at ha
          simp at ha
        · rw [htl] at ha
          have : a = ⟨"unifier", z.entryId, z.spread⟩ := by simpa using ha
          rw [this] at hid
          simp at hid
    have huni : ∀ a ∈ calculateMovieAwards (hd :: tl), a.id = "unifier" →
        ∃ z, tl.getLast? = some z ∧ a = ⟨"unifier", z.entryId, z.spread⟩ := by
      intro a ha hid
      unfold calculateMovieAwards at ha
      rw [List.mem_append] at ha
      rcases ha with ha | ha
      · exfalso
        by_cases hsp : 0 < hd.spread
        · rw [if_pos hsp] at ha
          have : a = ⟨"hype_train", hd.entryId, hd.spread⟩ := by simpa using ha
          rw [this] at hid
          simp at hid
        · rw [if_neg hsp] at ha
          simp at ha
      · rcases htl : tl.getLast? with _ | z
        · rw [htl] at ha
          simp at ha
        · rw [htl] at ha
          have : a = ⟨"unifier", z.entryId, z.spread⟩ := by simpa using ha
          exact ⟨z, rfl, this⟩
    refine ⟨?_, ?_, ?_⟩
    · intro a ha hid
      obtain ⟨rfl, hsp⟩ := hhype a ha hid
      obtain ⟨hin, hval⟩ := hmem hd hhdmv
      refine ⟨hin, hval, hsp, ?_⟩
      intro x hx
      rcases List.mem_cons.mp hx with rfl | hx2
      · exact le_refl _
      · exact (List.sorted_cons.mp hsort).1 x hx2
    · intro a ha hid
      obtain ⟨z, htl, rfl⟩ := huni a ha hid
      have hzmem : z ∈ hd :: tl := by
        obtain ⟨ys, hys⟩ := List.getLast?_eq_some_iff.mp htl
        rw [hys]
        simp
      obtain ⟨hin, hval⟩ := hmem z hzmem
      have hlast : (hd :: tl).getLast? = some z := by
        rcases tl with _ | ⟨b, t2⟩
        · simp at htl
        · rw [← htl]
          rfl
      refine ⟨hin, hval, ?_, ?_⟩
      · have h1 : (fullyRatedIds s).length = (hd :: tl).length := by
          have := hidsperm.length_eq
          simpa using this.symm
        have h2 : tl ≠ [] := by
          intro hnil
          rw [hnil] at htl
          simp at htl
        have h3 : 1 ≤ tl.length := by
          rcases tl with _ | _
          · exact absurd rfl h2
          · simp
        rw [h1]
        simp
        omega
      · exact sorted_statGE_getLast (hd :: tl) hsort z hlast
    · intro a ha b hb hida hidb
      obtain ⟨rfl, _⟩ := hhype a ha hida
      obtain ⟨z, htl, rfl⟩ := huni b hb hidb
      have hznodup : ((hd :: tl).map (fun x => x.entryId)).Nodup :=
        (hidsperm.nodup_iff).mpr (fullyRatedIds_nodup s)
      have hzmemtl : z ∈ tl := by
        obtain ⟨ys, hys⟩ := List.getLast?_eq_some_iff.mp htl
        rw [hys]
        simp
      have hdne : hd.entryId ∉ tl.map (fun x => x.entryId) := by
        rw [List.map_cons] at hznodup
        exact (List.nodup_cons.mp hznodup).1
      intro heq
      have heq' : hd.entryId = z.entryId := heq
      refine hdne ?_
      rw [heq']
      exact List.mem_map_of_mem _ hzmemtl

/-- Witness for `movie_awards_spec` at `snapSpread`: the Hype Train award
names entry 110 (spread 1) and the Unifier names entry 111 (spread 0). -/
theorem movie_awards_spec_witness :
    (⟨"hype_train", 110, 1⟩ : MovieAward) ∈ calculateMovieAwards (movieVariance snapSpread) ∧
    (⟨"unifier", 111, 0⟩ : MovieAward) ∈ calculateMovieAwards (movieVariance snapSpread) ∧
    (110 ∈ fullyRatedIds snapSpread ∧ (1 : ℚ) = varPop (entryScores snapSpread 110) ∧
      (0 : ℚ) < 1 ∧ ∀ x ∈ movieVariance snapSpread, x.spread ≤ 1) ∧
    (2 ≤ (fullyRatedIds snapSpread).length ∧
      ∀ x ∈ movieVariance snapSpread, (0 : ℚ) ≤ x.spread) ∧
    (110 : Nat) ≠ 111 := by
  have hids : fullyRatedIds snapSpread = [110, 111] := by decide
  have hv1 : varPop (entryScores snapSpread 110) = 1 := by
    norm_num [varPop, ratMean, entryScores, ratingsFor, snapSpread]
  have hv2 : varPop (entryScores snapSpread 111) = 0 := by
    norm_num [varPop, ratMean, entryScores, ratingsFor, snapSpread]
  have hmv : movieVariance snapSpread = [⟨110, 1⟩, ⟨111, 0⟩] := by
    unfold movieVariance
    rw [hids, List.map_cons, List.map_cons, List.map_nil, hv1, hv2]
    norm_num [List.insertionSort, List.orderedInsert, statGE]
  have hmem1 : (⟨"hype_train", 110, 1⟩ : MovieAward) ∈
      calculateMovieAwards (movieVariance snapSpread) := by
    rw [hmv]
    norm_num [calculateMovieAwards]
  have hmem2 : (⟨"unifier", 111, 0⟩ : MovieAward) ∈
      calculateMovieAwards (movieVariance snapSpread) := by
    rw [hmv]
    norm_num [calculateMovieAwards]
  refine ⟨hmem1, hmem2, ?_, ?_, ?_⟩
  · exact (movie_awards_spec snapSpread).1 _ hmem1 rfl
  · have h := (movie_awards_spec snapSpread).2.1 _ hmem2 rfl
    refine ⟨h.2.2.1, ?_⟩
    intro x hx
    exact h.2.2.2 x hx
  · exact (movie_awards_spec snapSpread).2.2 _ hmem1 _ hmem2 rfl rfl

theorem listMax?_none_iff {α : Type} [LinearOrder α] (l : List α) :
    listMax? l = none ↔ l = [] := by
  cases l with
  | nil => simp [listMax?]
  | cons x xs =>
    simp only [listMax?]
    rcases hxs : listMax? xs with _ | k <;> simp

theorem listMax?_mem {α : Type} [LinearOrder α] :
    ∀ l : List α, ∀ m : α, listMax? l = some m → m ∈ l := by
  intro l
  induction l with
  | nil =>
    intro m h
    simp [listMax?] at h
  | cons x xs ih =>
    intro m h
    rw [listMax?] at h
    rcases hxs : listMax? xs with _ | k
    · rw [hxs] at h
      have hm : x = m := by simpa using h
      rw [← hm]
      exact List.mem_cons_self x xs
    · rw [hxs] at h
      have hm : max x k = m := by simpa using h
      rcases max_choice x k with hc | hc
      · rw [← hm, hc]
        exact List.mem_cons_self x xs
      · rw [← hm, hc]
        exact List.mem_cons.mpr (Or.inr (ih k hxs))

theorem listMax?_ge {α : Type} [LinearOrder α] :
    ∀ l : List α, ∀ m : α, listMax? l = some m → ∀ x ∈ l, x ≤ m := by
  intro l
  induction l with
  | nil =>
    intro m _ x hx
    simp at hx
  | cons y xs ih =>
    intro m h x hx
    rw [listMax?] at h
    rcases hxs : listMax? xs with _ | k
    · rw [hxs] at h
      have hm : y = m := by simpa using h
      have hnil : xs = [] := (listMax?_none_iff xs).mp hxs
      rcases List.mem_cons.mp hx with rfl | hx2
      · rw [← hm]
      · rw [hnil] at hx2
        simp at hx2
    · rw [hxs] at h
      have hm : max y k = m := by simpa using h
      rcases List.mem_cons.mp hx with rfl | hx2
      · rw [← hm]
        exact le_max_left _ _
      · calc x ≤ k := ih k hxs x hx2
          _ ≤ max y k := le_max_right _ _
          _ = m := hm

theorem filter_eq_singleton_of_unique {α : Type} :
    ∀ (l : List α) (p : α → Bool) (e : α), l.Nodup → e ∈ l → p e = true →
      (∀ x ∈ l, p x = true → x = e) → l.filter p = [e] := by
  intro l
  induction l with
  | nil =>
    intro p e _ he
    simp at he
  | cons a t ih =>
    intro p e hN he hpe huniq
    have ha : a ∉ t := (List.nodup_cons.mp hN).1
    have hN' : t.Nodup := (List.nodup_cons.mp hN).2
    rcases List.mem_cons.mp he with rfl | he2
    · rw [List.filter_cons, if_pos hpe]
      have hnil : t.filter p = [] := by
        rw [List.filter_eq_nil_iff]
        intro x hx hpx
        have : x = e := huniq x (List.mem_cons.mpr (Or.inr hx)) hpx
        rw [this] at hx
        exact ha hx
      rw [hnil]
    · have hpa : p a = false := by
        by_contra hcon
        have hpa' : p a = true := by
          rcases Bool.eq_false_or_eq_true (p a) with h | h
          · exact h
          · exact absurd h hcon
        have : a = e := huniq a (List.mem_cons_self a t) hpa'
        rw [this] at ha
        exact ha he2
      rw [List.filter_cons, if_neg (by rw [hpa]; exact Bool.false_ne_true)]
      exact ih p e hN' he2 hpe
        (fun x hx hpx => huniq x (List.mem_cons.mpr (Or.inr hx)) hpx)

theorem getAdvantageHolder_le (s : Snapshot) (R : Int) (h : R ≤ 1) :
    getAdvantageHolder s R = (none, 0) := by
  unfold getAdvantageHolder
  rw [if_pos h]

theorem getAdvantageHolder_gt (s : Snapshot) (R : Int) (h : ¬(R ≤ 1)) :
    getAdvantageHolder s R =
      (match listMax? ((s.entries.filter (fun e => e.groupNumber == R - 1)).map
          (fun e => e.position)) with
       | none => ((none : Option Person), R - 1)
       | some mp =>
         ((((s.entries.filter (fun e => e.groupNumber == R - 1)).filter
              (fun e => e.position == mp)).filterMap
            (fun e => e.pickedBy.bind (fun pid => lookupPerson s pid))).head?, R - 1)) := by
  unfold getAdvantageHolder
  rw [if_neg h]

/-- C7: round R ≤ 1 yields no advantage holder; for R > 1 with an empty
previous round the result is no holder (a normal result); and for R > 1 the
holder is the picker of the unique maximum-position entry of round R−1,
looked up among the known persons — in particular a pickerless entry yields
no holder. -/
theorem advantage_resolution (s : Snapshot) (R : Int) (hE : s.entries.Nodup) :
    (R ≤ 1 → getAdvantageHolder s R = (none, 0)) ∧
    (1 < R → s.entries.filter (fun e => e.groupNumber == R - 1) = [] →
      getAdvantageHolder s R = (none, R - 1)) ∧
    (∀ e, 1 < R → e ∈ s.entries.filter (fun x => x.groupNumber == R - 1) →
      (∀ x ∈ s.entries.filter (fun x => x.groupNumber == R - 1), x.position ≤ e.position) →
      (∀ x ∈ s.entries.filter (fun x => x.groupNumber == R - 1),
        x.position = e.position → x = e) →
      getAdvantageHolder s R =
        (e.pickedBy.bind (fun pid => lookupPerson s pid), R - 1)) := by
  refine ⟨fun h => getAdvantageHolder_le s R h, ?_, ?_⟩
  · intro hR hnil
    rw [getAdvantageHolder_gt s R (not_le.mpr hR), hnil]
    rfl
  · intro e hR hmem hub huniq
    rw [getAdvantageHolder_gt s R (not_le.mpr hR)]
    have hne : s.entries.filter (fun x => x.groupNumber == R - 1) ≠ [] :=
      List.ne_nil_of_mem hmem
    obtain ⟨mp, hmp⟩ : ∃ mp,
        listMax? ((s.entries.filter (fun x => x.groupNumber == R - 1)).map
          (fun e => e.position)) = some mp := by
      rcases hcase : listMax? ((s.entries.filter (fun x => x.groupNumber == R - 1)).map
          (fun e => e.position)) with _ | mp
      · have := (listMax?_none_iff _).mp hcase
        rw [List.map_eq_nil_iff] at this
        exact absurd this hne
      · exact ⟨mp, hcase⟩
    have hmpmem := listMax?_mem _ _ hmp
    obtain ⟨e2, he2, he2p⟩ := List.mem_map.mp hmpmem
    have h1 : mp ≤ e.position := by
      rw [← he2p]
      exact hub e2 he2
    have h2 : e.position ≤ mp :=
      listMax?_ge _ _ hmp e.position (List.mem_map_of_mem _ hmem)
    have hmpe : mp = e.position := le_antisymm h1 h2
    simp only [hmp]
    have hfil : (s.entries.filter (fun x => x.groupNumber == R - 1)).filter
        (fun x => x.position == mp) = [e] := by
      refine filter_eq_singleton_of_unique _ _ e (List.Nodup.filter _ hE) hmem ?_ ?_
      · rw [hmpe]
        simp
      · intro x hx hpx
        refine huniq x hx ?_
        have hxp : x.position = mp := by simpa using hpx
        rw [hxp, hmpe]
    rw [hfil]
    rcases hpk : e.pickedBy with _ | pid
    · simp [List.filterMap_cons, hpk]
    · rcases hlk : lookupPerson s pid with _ | p
      · simp [List.filterMap_cons, hpk, hlk]
      · simp [List.filterMap_cons, hpk, hlk]

/-- Witness for `advantage_resolution` at `snapTie` with current round 2: the
previous round's maximum-position entry is entry 101, picked by person A, who
is therefore the advantage holder. -/
theorem advantage_resolution_witness :
    snapTie.entries.Nodup ∧
    ((⟨101, 500, 1, 1, some 1⟩ : Entry) ∈
      snapTie.entries.filter (fun x => x.groupNumber == (2:Int) - 1)) ∧
    getAdvantageHolder snapTie 2 = (some pA, 1) := by
  refine ⟨by decide, by decide, ?_⟩
  have h := (advantage_resolution snapTie 2 (by decide)).2.2
    ⟨101, 500, 1, 1, some 1⟩ (by decide) (by decide) (by decide) (by decide)
  rw [h]
  decide

theorem foldl_max_ge (l : List ℚ) :
    ∀ a : ℚ, (∀ v ∈ l, v ≤ l.foldl max a) ∧ a ≤ l.foldl max a ∧
      (l.foldl max a = a ∨ l.foldl max a ∈ l) := by
  induction l with
  | nil =>
    intro a
    exact ⟨by simp, le_refl a, Or.inl rfl⟩
  | cons x t ih =>
    intro a
    obtain ⟨hall, hinit, hmem⟩ := ih (max a x)
    rw [List.foldl_cons]
    refine ⟨?_, le_trans (le_max_left a x) hinit, ?_⟩
    · intro v hv
      rcases List.mem_cons.mp hv with rfl | hv2
      · exact le_trans (le_max_right a v) hinit
      · exact hall v hv2
    · rcases hmem with h | h
      · rcases max_choice a x with hc | hc
        · exact Or.inl (by rw [h, hc])
        · refine Or.inr ?_
          rw [h, hc]
          exact List.mem_cons_self x t
      · exact Or.inr (List.mem_cons.mpr (Or.inr h))

theorem foldl_max_spec (l : List ℚ) (hnn : ∀ v ∈ l, 0 ≤ v) (hne : l ≠ []) :
    l.foldl max 0 ∈ l ∧ ∀ v ∈ l, v ≤ l.foldl max 0 := by
  obtain ⟨hall, _, hmem⟩ := foldl_max_ge l 0
  refine ⟨?_, hall⟩
  rcases hmem with h | h
  · rcases l with _ | ⟨v, t⟩
    · exact absurd rfl hne
    · have hv0 : v ≤ 0 := by
        rw [← h]
        exact hall v (List.mem_cons_self v t)
      have hv0' : 0 ≤ v := hnn v (List.mem_cons_self v t)
      have : v = 0 := le_antisymm hv0 hv0'
      rw [h, ← this]
      exact List.mem_cons_self v t
  · exact h

theorem boardOf_spec (title : String) (ents : List LBEntry)
    (hnn : ∀ en ∈ ents, 0 ≤ en.value) :
    (∀ lb ∈ boardOf title ents,
      lb.title = title ∧
      List.Sorted lbGE lb.entries ∧ lb.entries ≠ [] ∧
      lb.maxValue ∈ lb.entries.map (fun en => en.value) ∧
      (∀ v ∈ lb.entries.map (fun en => en.value), v ≤ lb.maxValue) ∧
      (∀ en, en ∈ lb.entries ↔ en ∈ ents)) ∧
    ((boardOf title ents ≠ []) ↔ ents ≠ []) ∧
    (boardOf title ents).length ≤ 1 := by
  by_cases he : ents.isEmpty = true
  · have hnil : ents = [] := List.isEmpty_iff.mp he
    unfold boardOf
    rw [if_pos he]
    refine ⟨?_, ?_, ?_⟩
    · intro lb hlb
      simp at hlb
    · simp [hnil]
    · simp
  · have hne : ents ≠ [] := by
      intro hcon
      rw [hcon] at he
      exact he rfl
    unfold boardOf
    rw [if_neg he]
    have hperm := List.perm_insertionSort lbGE ents
    have hvals : ∀ v ∈ (List.insertionSort lbGE ents).map (fun en => en.value), 0 ≤ v := by
      intro v hv
      obtain ⟨en, hen, rfl⟩ := List.mem_map.mp hv
      exact hnn en (hperm.mem_iff.mp hen)
    refine ⟨?_, ?_, ?_⟩
    · intro lb hlb
      have hlb' : lb = ⟨title, List.insertionSort lbGE ents,
          (ents.map (fun en => en.value)).foldl max 0⟩ := by
        simpa using hlb
      rw [hlb']
      have hsne : List.insertionSort lbGE ents ≠ [] := by
        intro hcon
        have := hperm.length_eq
        rw [hcon] at this
        rcases ents with _ | _
        · exact hne rfl
        · simp at this
      have hmapperm : ((List.insertionSort lbGE ents).map (fun en => en.value)).Perm
          (ents.map (fun en => en.value)) := hperm.map _
      have hmne : ents.map (fun en => en.value) ≠ [] := by
        intro hcon
        rw [List.map_eq_nil_iff] at hcon
        exact hne hcon
      have hmnn : ∀ v ∈ ents.map (fun en => en.value), 0 ≤ v := by
        intro v hv
        obtain ⟨en, hen, rfl⟩ := List.mem_map.mp hv
        exact hnn en hen
      obtain ⟨hfm, hfb⟩ := foldl_max_spec (ents.map (fun en => en.value)) hmnn hmne
      refine ⟨rfl, List.sorted_insertionSort lbGE ents, hsne, ?_, ?_, ?_⟩
      · exact hmapperm.mem_iff.mpr hfm
      · intro v hv
        exact hfb v (hmapperm.mem_iff.mp hv)
      · intro en
        exact hperm.mem_iff
    · simp [hne]
    · simp

theorem mem_genEntries {stats : List PersonStats} {en : LBEntry} :
    en ∈ genEntries stats ↔
      ∃ ps ∈ stats, 0 < ps.moviesRated ∧ en = ⟨ps.person, ps.avgRatingGiven⟩ := by
  unfold genEntries
  constructor
  · intro h
    obtain ⟨ps, hps, rfl⟩ := List.mem_map.mp h
    obtain ⟨hmem, hq⟩ := List.mem_filter.mp hps
    exact ⟨ps, hmem, of_decide_eq_true hq, rfl⟩
  · rintro ⟨ps, hmem, hq, rfl⟩
    exact List.mem_map_of_mem _ (List.mem_filter.mpr ⟨hmem, decide_eq_true hq⟩)

theorem mem_succEntries {stats : List PersonStats} {en : LBEntry} :
    en ∈ succEntries stats ↔
      ∃ ps ∈ stats, (0 < ps.totalPicks ∧ 0 < ps.avgRatingReceived) ∧
        en = ⟨ps.person, ps.avgRatingReceived⟩ := by
  unfold succEntries
  constructor
  · intro h
    obtain ⟨ps, hps, rfl⟩ := List.mem_map.mp h
    obtain ⟨hmem, hq⟩ := List.mem_filter.mp hps
    obtain ⟨hq1, hq2⟩ := (Bool.and_eq_true _ _).mp hq
    exact ⟨ps, hmem, ⟨of_decide_eq_true hq1, of_decide_eq_true hq2⟩, rfl⟩
  · rintro ⟨ps, hmem, ⟨hq1, hq2⟩, rfl⟩
    refine List.mem_map_of_mem _ (List.mem_filter.mpr ⟨hmem, ?_⟩)
    rw [decide_eq_true hq1, decide_eq_true hq2]
    rfl

theorem mem_pickEntries {stats : List PersonStats} {en : LBEntry} :
    en ∈ pickEntries stats ↔
      ∃ ps ∈ stats, 0 < ps.totalPicks ∧ en = ⟨ps.person, (ps.totalPicks : ℚ)⟩ := by
  unfold pickEntries
  constructor
  · intro h
    obtain ⟨ps, hps, rfl⟩ := List.mem_map.mp h
    obtain ⟨hmem, hq⟩ := List.mem_filter.mp hps
    exact ⟨ps, hmem, of_decide_eq_true hq, rfl⟩
  · rintro ⟨ps, hmem, hq, rfl⟩
    exact List.mem_map_of_mem _ (List.mem_filter.mpr ⟨hmem, decide_eq_true hq⟩)

theorem receivedScoresFR_bounds {s : Snapshot} {pid : Nat}
    (hscore : ∀ r ∈ s.ratings, 0 ≤ r.score ∧ r.score ≤ 10) :
    ∀ x ∈ receivedScoresFR s pid, 0 ≤ x ∧ x ≤ 10 := by
  intro x hx
  obtain ⟨e, _, hx2⟩ := List.mem_flatMap.mp hx
  obtain ⟨r, hr, rfl⟩ := List.mem_map.mp hx2
  exact hscore r (List.mem_filter.mp hr).1

/-- C8: the report carries at most three leaderboards, titled Generosity
Index, Pick Success Rate and Total Picks; each present board is nonempty,
sorted by value descending, and carries the maximum value among its entries;
each board contains exactly the qualifying persons with the claimed metric
as value; and a board is present iff at least one person qualifies for it
(zero qualifiers means the board is omitted, never emitted empty). -/
theorem leaderboards_spec (s : Snapshot)
    (hscore : ∀ r ∈ s.ratings, 0 ≤ r.score ∧ r.score ≤ 10) :
    (buildLeaderboards (allPersonStats s)).length ≤ 3 ∧
    (∀ lb ∈ buildLeaderboards (allPersonStats s),
      (lb.title = "Generosity Index" ∨ lb.title = "Pick Success Rate" ∨
        lb.title = "Total Picks") ∧
      lb.entries ≠ [] ∧ List.Sorted lbGE lb.entries ∧
      lb.maxValue ∈ lb.entries.map (fun en => en.value) ∧
      (∀ v ∈ lb.entries.map (fun en => en.value), v ≤ lb.maxValue)) ∧
    (∀ lb ∈ buildLeaderboards (allPersonStats s), lb.title = "Generosity Index" →
      ∀ en, en ∈ lb.entries ↔
        ∃ ps ∈ allPersonStats s, 0 < ps.moviesRated ∧
          en = ⟨ps.person, ps.avgRatingGiven⟩) ∧
    (∀ lb ∈ buildLeaderboards (allPersonStats s), lb.title = "Pick Success Rate" →
      ∀ en, en ∈ lb.entries ↔
        ∃ ps ∈ allPersonStats s, (0 < ps.totalPicks ∧ 0 < ps.avgRatingReceived) ∧
          en = ⟨ps.person, ps.avgRatingReceived⟩) ∧
    (∀ lb ∈ buildLeaderboards (allPersonStats s), lb.title = "Total Picks" →
      ∀ en, en ∈ lb.entries ↔
        ∃ ps ∈ allPersonStats s, 0 < ps.totalPicks ∧
          en = ⟨ps.person, (ps.totalPicks : ℚ)⟩) ∧
    ((∃ lb ∈ buildLeaderboards (allPersonStats s), lb.title = "Generosity Index") ↔
      ∃ ps ∈ allPersonStats s, 0 < ps.moviesRated) ∧
    ((∃ lb ∈ buildLeaderboards (allPersonStats s), lb.title = "Pick Success Rate") ↔
      ∃ ps ∈ allPersonStats s, 0 < ps.totalPicks ∧ 0 < ps.avgRatingReceived) ∧
    ((∃ lb ∈ buildLeaderboards (allPersonStats s), lb.title = "Total Picks") ↔
      ∃ ps ∈ allPersonStats s, 0 < ps.totalPicks) := by
  have hstatnn : ∀ ps ∈ allPersonStats s,
      0 ≤ ps.avgRatingGiven ∧ 0 ≤ ps.avgRatingReceived := by
    intro ps hps
    obtain ⟨p, _, rfl⟩ := List.mem_map.mp hps
    constructor
    · exact ratMean_nonneg (fun x hx => (givenScoresFR_bounds hscore x hx).1)
    · exact ratMean_nonneg (fun x hx => (receivedScoresFR_bounds hscore x hx).1)
  have hnn1 : ∀ en ∈ genEntries (allPersonStats s), 0 ≤ en.value := by
    intro en hen
    obtain ⟨ps, hps, _, rfl⟩ := mem_genEntries.mp hen
    exact (hstatnn ps hps).1
  have hnn2 : ∀ en ∈ succEntries (allPersonStats s), 0 ≤ en.value := by
    intro en hen
    obtain ⟨ps, hps, _, rfl⟩ := mem_succEntries.mp hen
    exact (hstatnn ps hps).2
  have hnn3 : ∀ en ∈ pickEntries (allPersonStats s), 0 ≤ en.value := by
    intro en hen
    obtain ⟨ps, _, _, rfl⟩ := mem_pickEntries.mp hen
    exact Nat.cast_nonneg _
  have hb1 := boardOf_spec "Generosity Index" (genEntries (allPersonStats s)) hnn1
  have hb2 := boardOf_spec "Pick Success Rate" (succEntries (allPersonStats s)) hnn2
  have hb3 := boardOf_spec "Total Picks" (pickEntries (allPersonStats s)) hnn3
  have hsplit : ∀ lb ∈ buildLeaderboards (allPersonStats s),
      lb ∈ boardOf "Generosity Index" (genEntries (allPersonStats s)) ∨
      lb ∈ boardOf "Pick Success Rate" (succEntries (allPersonStats s)) ∨
      lb ∈ boardOf "Total Picks" (pickEntries (allPersonStats s)) := by
    intro lb hlb
    unfold buildLeaderboards at hlb
    rcases List.mem_append.mp hlb with h | h
    · rcases List.mem_append.mp h with h2 | h2
      · exact Or.inl h2
      · exact Or.inr (Or.inl h2)
    · exact Or.inr (Or.inr h)
  have hjoin1 : ∀ lb ∈ boardOf "Generosity Index" (genEntries (allPersonStats s)),
      lb ∈ buildLeaderboards (allPersonStats s) := by
    intro lb hlb
    unfold buildLeaderboards
    exact List.mem_append.mpr (Or.inl (List.mem_append.mpr (Or.inl hlb)))
  have hjoin2 : ∀ lb ∈ boardOf "Pick Success Rate" (succEntries (allPersonStats s)),
      lb ∈ buildLeaderboards (allPersonStats s) := by
    intro lb hlb
    unfold buildLeaderboards
    exact List.mem_append.mpr (Or.inl (List.mem_append.mpr (Or.inr hlb)))
  have hjoin3 : ∀ lb ∈ boardOf "Total Picks" (pickEntries (allPersonStats s)),
      lb ∈ buildLeaderboards (allPersonStats s) := by
    intro lb hlb
    unfold buildLeaderboards
    exact List.mem_append.mpr (Or.inr hlb)
  refine ⟨?_, ?_, ?_, ?_, ?_, ?_, ?_, ?_⟩
  · unfold buildLeaderboards
    rw [List.length_append, List.length_append]
    omega
  · intro lb hlb
    rcases hsplit lb hlb with h | h | h
    · obtain ⟨ht, hs, hne, hm, hv, _⟩ := hb1.1 lb h
      exact ⟨Or.inl ht, hne, hs, hm, hv⟩
    · obtain ⟨ht, hs, hne, hm, hv, _⟩ := hb2.1 lb h
      exact ⟨Or.inr (Or.inl ht), hne, hs, hm, hv⟩
    · obtain ⟨ht, hs, hne, hm, hv, _⟩ := hb3.1 lb h
      exact ⟨Or.inr (Or.inr ht), hne, hs, hm, hv⟩
  · intro lb hlb htitle en
    rcases hsplit lb hlb with h | h | h
    · rw [(hb1.1 lb h).2.2.2.2.2 en]
      exact mem_genEntries
    · rw [(hb2.1 lb h).1] at htitle
      simp at htitle
    · rw [(hb3.1 lb h).1] at htitle
      simp at htitle
  · intro lb hlb htitle en
    rcases hsplit lb hlb with h | h | h
    · rw [(hb1.1 lb h).1] at htitle
      simp at htitle
    · rw [(hb2.1 lb h).2.2.2.2.2 en]
      exact mem_succEntries
    · rw [(hb3.1 lb h).1] at htitle
      simp at htitle
  · intro lb hlb htitle en
    rcases hsplit lb hlb with h | h | h
    · rw [(hb1.1 lb h).1] at htitle
      simp at htitle
    · rw [(hb2.1 lb h).1] at htitle
      simp at htitle
    · rw [(hb3.1 lb h).2.2.2.2.2 en]
      exact mem_pickEntries
  · constructor
    · rintro ⟨lb, hlb, htitle⟩
      rcases hsplit lb hlb with h | h | h
      · have hne := List.ne_nil_of_mem h
        have hents := hb1.2.1.mp hne
        obtain ⟨en, hen⟩ := List.exists_mem_of_ne_nil _ hents
        obtain ⟨ps, hps, hq, _⟩ := mem_genEntries.mp hen
        exact ⟨ps, hps, hq⟩
      · rw [(hb2.1 lb h).1] at htitle
        simp at htitle
      · rw [(hb3.1 lb h).1] at htitle
        simp at htitle
    · rintro ⟨ps, hps, hq⟩
      have hen : (⟨ps.person, ps.avgRatingGiven⟩ : LBEntry) ∈ genEntries (allPersonStats s) :=
        mem_genEntries.mpr ⟨ps, hps, hq, rfl⟩
      have hne := hb1.2.1.mpr (List.ne_nil_of_mem hen)
      obtain ⟨lb, hlb⟩ := List.exists_mem_of_ne_nil _ hne
      exact ⟨lb, hjoin1 lb hlb, (hb1.1 lb hlb).1⟩
  · constructor
    · rintro ⟨lb, hlb, htitle⟩
      rcases hsplit lb hlb with h | h | h
      · rw [(hb1.1 lb h).1] at htitle
        simp at htitle
      · have hne := List.ne_nil_of_mem h
        have hents := hb2.2.1.mp hne
        obtain ⟨en, hen⟩ := List.exists_mem_of_ne_nil _ hents
        obtain ⟨ps, hps, hq, _⟩ := mem_succEntries.mp hen
        exact ⟨ps, hps, hq⟩
      · rw [(hb3.1 lb h).1] at htitle
        simp at htitle
    · rintro ⟨ps, hps, hq⟩
      have hen : (⟨ps.person, ps.avgRatingReceived⟩ : LBEntry) ∈
          succEntries (allPersonStats s) :=
        mem_succEntries.mpr ⟨ps, hps, hq, rfl⟩
      have hne := hb2.2.1.mpr (List.ne_nil_of_mem hen)
      obtain ⟨lb, hlb⟩ := List.exists_mem_of_ne_nil _ hne
      exact ⟨lb, hjoin2 lb hlb, (hb2.1 lb hlb).1⟩
  · constructor
    · rintro ⟨lb, hlb, htitle⟩
      rcases hsplit lb hlb with h | h | h
      · rw [(hb1.1 lb h).1] at htitle
        simp at htitle
      · rw [(hb2.1 lb h).1] at htitle
        simp at htitle
      · have hne := List.ne_nil_of_mem h
        have hents := hb3.2.1.mp hne
        obtain ⟨en, hen⟩ := List.exists_mem_of_ne_nil _ hents
        obtain ⟨ps, hps, hq, _⟩ := mem_pickEntries.mp hen
        exact ⟨ps, hps, hq⟩
    · rintro ⟨ps, hps, hq⟩
      have hen : (⟨ps.person, (ps.totalPicks : ℚ)⟩ : LBEntry) ∈
          pickEntries (allPersonStats s) :=
        mem_pickEntries.mpr ⟨ps, hps, hq, rfl⟩
      have hne := hb3.2.1.mpr (List.ne_nil_of_mem hen)
      obtain ⟨lb, hlb⟩ := List.exists_mem_of_ne_nil _ hne
      exact ⟨lb, hjoin3 lb hlb, (hb3.1 lb hlb).1⟩

/-- Witness for `leaderboards_spec` at `snapFour`: the score-range hypothesis
holds and the Generosity Index board is present because every person rated
the fully-rated entry. -/
theorem leaderboards_spec_witness :
    (∀ r ∈ snapFour.ratings, 0 ≤ r.score ∧ r.score ≤ 10) ∧
    (buildLeaderboards (allPersonStats snapFour)).length ≤ 3 ∧
    ((∃ lb ∈ buildLeaderboards (allPersonStats snapFour),
        lb.title = "Generosity Index") ↔
      ∃ ps ∈ allPersonStats snapFour, 0 < ps.moviesRated) :=
  ⟨by decide, (leaderboards_spec snapFour (by decide)).1,
    (leaderboards_spec snapFour (by decide)).2.2.2.2.2.1⟩
